import Mathlib

/-!
Verification of the eventbook core library: a shallow embedding of the
fractional-index algebra (`core/src/fractional_index.rs`), the in-memory
event store (`core/src/lib.rs`), the document materializer and projection
(`core/src/document.rs`), and the GET-events HTTP handler
(`server/src/lib.rs`), together with theorems settling the frozen claims.

Modelling conventions:
* Rust `String`/`&str` indices of the fractional-index module are `List Char`;
  Rust string comparison (byte-wise UTF-8, which coincides with code-point
  order) is the char-wise lexicographic `strLtCC`/`strCmpCC` below.
* `serde_json::Value` is the `Json` inductive; numbers are modelled as `Int`
  (every payload field the materializer reads is accessed as `i64`/`u64`, and
  `position`, read as `f64`, is only stored, never computed with).
* `HashMap<K, V>` is an association list `List (K × V)` with HashMap
  insert/remove/get semantics; iteration order is insertion order (one of the
  orders a HashMap may exhibit).
* `i64`/`u64` are `Int`/`Nat`; no arithmetic in the modelled code can overflow
  an `i64` (versions and timestamps only ever grow by `+ 1`).
-/

set_option maxHeartbeats 1000000
set_option maxRecDepth 4000

namespace Eventbook

/-! ## JSON values (model of serde_json::Value) -/

/-- Model of `serde_json::Value`. Numbers are restricted to integers, which
covers every access the materializer performs (`as_str`, `as_bool`, `as_u64`,
and `as_f64` on the integral `position` field). -/
inductive Json where
  | null
  | bool (b : Bool)
  | num (n : Int)
  | str (s : String)
  | arr (xs : List Json)
  | obj (fields : List (String × Json))

/-! ## Association-list maps (model of std::collections::HashMap) -/

/-- First value stored under key `k` (model of `HashMap::get`). -/
def lookupKV {α : Type} : List (String × α) → String → Option α
  | [], _ => none
  | p :: rest, k => if p.1 = k then some p.2 else lookupKV rest k

/-- Whether some entry has key `k`. -/
def containsKV {α : Type} (l : List (String × α)) (k : String) : Bool :=
  l.any (fun p => p.1 == k)

/-- Model of `HashMap::insert`: replace the value under `k` if present,
otherwise add a new entry. -/
def insertKV {α : Type} (l : List (String × α)) (k : String) (v : α) :
    List (String × α) :=
  if containsKV l k then l.map (fun p => if p.1 = k then (k, v) else p)
  else l ++ [(k, v)]

/-- Model of mutating through `HashMap::get_mut`: replace the value under `k`
when present, otherwise leave the map unchanged. -/
def updateKV {α : Type} (l : List (String × α)) (k : String) (v : α) :
    List (String × α) :=
  l.map (fun p => if p.1 = k then (k, v) else p)

/-- Model of `HashMap::remove`. -/
def removeKV {α : Type} (l : List (String × α)) (k : String) :
    List (String × α) :=
  l.filter (fun p => !(p.1 == k))

/-- `Value::get` on an object; `None` on any other value. -/
def Json.get? : Json → String → Option Json
  | .obj fields, k => lookupKV fields k
  | _, _ => none

/-- `Value::as_str`. -/
def Json.asStr : Json → Option String
  | .str s => some s
  | _ => none

/-- `Value::as_bool`. -/
def Json.asBool : Json → Option Bool
  | .bool b => some b
  | _ => none

/-- `Value::as_u64` (integral, non-negative numbers). -/
def Json.asU64 : Json → Option Nat
  | .num n => if 0 ≤ n then some n.toNat else none
  | _ => none

/-- `Value::as_f64` restricted to the integral numbers of this model. -/
def Json.asF64 : Json → Option Int
  | .num n => some n
  | _ => none

/-- `payload.get(k).and_then(|v| v.as_str())`. -/
def jsonGetStr (j : Json) (k : String) : Option String :=
  (j.get? k).bind Json.asStr

/-! ## Fractional indexing (core/src/fractional_index.rs) -/

/-- The 62-character alphabet `CHARS`, in source order. -/
def CHARS : List Char :=
  ['0', '1', '2', '3', '4', '5', '6', '7', '8', '9',
   'A', 'B', 'C', 'D', 'E', 'F', 'G', 'H', 'I', 'J', 'K', 'L', 'M',
   'N', 'O', 'P', 'Q', 'R', 'S', 'T', 'U', 'V', 'W', 'X', 'Y', 'Z',
   'a', 'b', 'c', 'd', 'e', 'f', 'g', 'h', 'i', 'j', 'k', 'l', 'm',
   'n', 'o', 'p', 'q', 'r', 's', 't', 'u', 'v', 'w', 'x', 'y', 'z']

/-- `BASE = CHARS.len() = 62`. -/
def BASE : Nat := CHARS.length

/-- Error type `FractionalIndexError`. -/
inductive FractionalIndexError where
  | InvalidCharacter (c : Char)
  | InvalidIndex (s : String)
  | CannotGenerate (reason : String)
deriving DecidableEq

/-- `char_at(pos) = CHARS[pos % BASE]`. -/
def charAt (pos : Nat) : Char :=
  CHARS.getD (pos % BASE) '0'

/-- Helper for `char_pos`: the position of the first occurrence of `c`. -/
def charPosAux : List Char → Char → Nat → Option Nat
  | [], _, _ => none
  | x :: rest, c, i => if x = c then some i else charPosAux rest c (i + 1)

/-- `char_pos(c)`: position of `c` in `CHARS`, if any. -/
def charPos (c : Char) : Option Nat :=
  charPosAux CHARS c 0

/-- `is_valid_char`. -/
def isValidChar (c : Char) : Bool :=
  (charPos c).isSome

/-- `get_previous_char`. -/
def getPreviousChar (c : Char) : Option Char :=
  (charPos c).bind fun pos => if pos > 0 then some (charAt (pos - 1)) else none

/-- `get_next_char`. -/
def getNextChar (c : Char) : Option Char :=
  (charPos c).bind fun pos =>
    if pos < BASE - 1 then some (charAt (pos + 1)) else none

/-- Character scan of `validate_index`: first invalid character is reported. -/
def validateChars : List Char → Except FractionalIndexError Unit
  | [] => .ok ()
  | c :: rest =>
    if isValidChar c then validateChars rest
    else .error (.InvalidCharacter c)

/-- `validate_index`. -/
def validateIndex (s : List Char) : Except FractionalIndexError Unit :=
  if s.isEmpty then .error (.InvalidIndex "Empty index")
  else validateChars s

/-- `to_digits`: positions of the characters, first invalid char errors. -/
def toDigits : List Char → Except FractionalIndexError (List Nat)
  | [] => .ok []
  | c :: rest =>
    match charPos c with
    | some d => (toDigits rest).map (fun ds => d :: ds)
    | none => .error (.InvalidCharacter c)

/-- `from_digits`. -/
def fromDigits (digits : List Nat) : List Char :=
  digits.map charAt

/-- The phase of the `midpoint` scanning loop in which `a` is exhausted: every
`a`-digit is the `0` padding while `b` still supplies real digits. -/
def midLoopNil : List Nat → List Nat
  | [] => []
  | y :: ys =>
    if 0 = y then 0 :: midLoopNil ys
    else if 0 + 1 = y then [0, (BASE - 1) / 2]
    else [(0 + y) / 2]

/-- The scanning loop of `midpoint`: walk the two digit sequences in parallel,
padding `a` with `0` and `b` with `BASE - 1`; copy equal digits, stop at the
first difference (adjacent digits extend with the mid-alphabet digit). -/
def midLoop : List Nat → List Nat → List Nat
  | [], b => midLoopNil b
  | x :: xs, [] =>
    if x = BASE - 1 then x :: midLoop xs []
    else if x + 1 = BASE - 1 then [x, (BASE - 1) / 2]
    else [(x + (BASE - 1)) / 2]
  | x :: xs, y :: ys =>
    if x = y then x :: midLoop xs ys
    else if x + 1 = y then [x, (BASE - 1) / 2]
    else [(x + y) / 2]

/-- `midpoint` (always succeeds in the source; the `Result` wrapper there never
carries an error). -/
def midpoint (a b : List Nat) : List Nat :=
  let result := midLoop a b
  if result.isEmpty then [BASE / 2] else result

/-- Rust `&str` strict lexicographic order (byte-wise comparison; equals
char-wise code-point comparison). -/
def strLtCC : List Char → List Char → Bool
  | [], [] => false
  | [], _ :: _ => true
  | _ :: _, [] => false
  | a :: as1, b :: bs1 =>
    if a < b then true else if b < a then false else strLtCC as1 bs1

/-- Rust `&str` three-way comparison. -/
def strCmpCC : List Char → List Char → Ordering
  | [], [] => .eq
  | [], _ :: _ => .lt
  | _ :: _, [] => .gt
  | a :: as1, b :: bs1 =>
    if a < b then .lt else if b < a then .gt else strCmpCC as1 bs1

/-- `initial() = "a0"`. -/
def initialIndex : List Char := ['a', '0']

/-- `between(a, b)`. -/
def between (a b : List Char) : Except FractionalIndexError (List Char) :=
  if !(strLtCC a b) then
    .error (.CannotGenerate ("First index '" ++ String.mk a ++
      "' must be less than second index '" ++ String.mk b ++ "'"))
  else do
    validateIndex a
    validateIndex b
    let aDigits ← toDigits a
    let bDigits ← toDigits b
    .ok (fromDigits (midpoint aDigits bDigits))

/-- `before(index)`. -/
def before (index : List Char) : Except FractionalIndexError (List Char) := do
  validateIndex index
  if index.isEmpty then
    .ok ['a', '0']
  else
    match index.getLast? with
    | some lastChar =>
      match getPreviousChar lastChar with
      | some prevChar => .ok (index.dropLast ++ [prevChar])
      | none => do
        let indexDigits ← toDigits index
        .ok (fromDigits (midpoint [0] indexDigits))
    | none => do
      let indexDigits ← toDigits index
      .ok (fromDigits (midpoint [0] indexDigits))

/-- `after(index)`. -/
def after (index : List Char) : Except FractionalIndexError (List Char) := do
  validateIndex index
  match index.getLast? with
  | some lastChar =>
    match getNextChar lastChar with
    | some nextChar => .ok (index.dropLast ++ [nextChar])
    | none => .ok (index ++ [charAt 1])
  | none => .ok (index ++ [charAt 1])

/-- `is_valid_order`: every adjacent pair strictly increasing. -/
def isValidOrder : List (List Char) → Bool
  | [] => true
  | [_] => true
  | a :: b :: rest => strLtCC a b && isValidOrder (b :: rest)

/-! ## Events and the in-memory event store (core/src/lib.rs) -/

/-- The core `Event` record. -/
structure Event where
  id : String
  event_type : String
  aggregate_id : String
  payload : Json
  timestamp : Int
  version : Int

/-- `EventError`. -/
inductive EventError where
  | InvalidVersion (expected got : Int)
  | DuplicateEventId (id : String)
  | InvalidEventType (t : String)
  | InvalidAggregateId (id : String)
  | SerializationError (msg : String)
  | ValidationError (msg : String)
deriving DecidableEq

/-- The `Display` implementation for `EventError`. -/
def displayEventError : EventError → String
  | .InvalidVersion expected got =>
    "Invalid version: expected " ++ toString expected ++ ", got " ++ toString got
  | .DuplicateEventId id => "Duplicate event ID: " ++ id
  | .InvalidEventType t => "Invalid event type: " ++ t
  | .InvalidAggregateId id => "Invalid aggregate ID: " ++ id
  | .SerializationError msg => "Serialization error: " ++ msg
  | .ValidationError msg => "Validation error: " ++ msg

/-- `InMemoryEventStore`: the flat event list plus the per-aggregate latest
version map. -/
structure InMemoryEventStore where
  events : List Event
  version_map : List (String × Int)

/-- `InMemoryEventStore::new()`. -/
def InMemoryEventStore.new : InMemoryEventStore := ⟨[], []⟩

/-- `get_latest_version`: `0` when the aggregate has no entry. -/
def getLatestVersion (s : InMemoryEventStore) (aggregate_id : String) : Int :=
  (lookupKV s.version_map aggregate_id).getD 0

/-- `append_event`, returning the Rust call's result together with the store
after the call (`&mut self` is untouched on either error path). -/
def appendEvent (s : InMemoryEventStore) (e : Event) :
    Except EventError Unit × InMemoryEventStore :=
  if s.events.any (fun e2 => e2.id == e.id) then
    (.error (.DuplicateEventId e.id), s)
  else
    let expected := getLatestVersion s e.aggregate_id + 1
    if e.version ≠ expected then
      (.error (.InvalidVersion expected e.version), s)
    else
      (.ok (), { events := s.events ++ [e],
                 version_map := insertKV s.version_map e.aggregate_id e.version })

/-- Stable insertion used by `stableSort`: a new element goes after every
element that is less-or-equal, before the first strictly greater one. -/
def insertLe {α : Type} (le : α → α → Bool) (x : α) : List α → List α
  | [] => [x]
  | y :: ys => if le y x then y :: insertLe le x ys else x :: y :: ys

/-- Stable sort (model of `Vec::sort_by` / `sort_by_key`, which are stable):
elements are inserted left to right, each after its equals. -/
def stableSort {α : Type} (le : α → α → Bool) (l : List α) : List α :=
  l.foldl (fun acc x => insertLe le x acc) []

/-- `get_events(aggregate_id)`: filter then stable sort by `version`. -/
def getEvents (s : InMemoryEventStore) (aggregate_id : String) : List Event :=
  stableSort (fun a b => decide (a.version ≤ b.version))
    (s.events.filter (fun e => e.aggregate_id == aggregate_id))

/-- `get_event_count()`. -/
def getEventCount (s : InMemoryEventStore) : Nat :=
  s.events.length

/-- A sequence of `append_event` calls starting from the empty store; a failed
call leaves the store as it was and the sequence continues. -/
def runAppends (es : List Event) : InMemoryEventStore :=
  es.foldl (fun s e => (appendEvent s e).2) InMemoryEventStore.new

/-! ## Document domain model (core/src/document.rs) -/

/-- `CellType`. -/
inductive CellType where
  | Code | Markdown | Sql | Ai | Raw
deriving DecidableEq

/-- `ExecutionState`. -/
inductive ExecutionState where
  | Idle | Queued | Running | Completed | Error
deriving DecidableEq

/-- `OutputType`. -/
inductive OutputType where
  | MultimediaDisplay | MultimediaResult | Terminal | Markdown | Error
deriving DecidableEq

/-- `MediaRepresentation` (tagged union over `"type"`). -/
inductive MediaRepresentation where
  | Inline (data : Json) (metadata : Option (List (String × Json)))
  | Artifact (artifact_id : String) (metadata : Option (List (String × Json)))

/-- `Cell`. -/
structure Cell where
  id : String
  cell_type : CellType
  source : String
  fractional_index : Option String
  execution_count : Option Nat
  execution_state : ExecutionState
  assigned_runtime_session : Option String
  last_execution_duration_ms : Option Nat
  sql_connection_id : Option String
  sql_result_variable : Option String
  ai_provider : Option String
  ai_model : Option String
  ai_settings : Option Json
  source_visible : Bool
  output_visible : Bool
  ai_context_visible : Bool
  created_by : String
  document_id : String
  created_at : Int
  updated_at : Int

/-- `CellOutput` (`position` is `f64` in the source; only integral positions
are representable in this model and no claim computes with positions). -/
structure CellOutput where
  id : String
  cell_id : String
  output_type : OutputType
  position : Int
  stream_name : Option String
  execution_count : Option Nat
  display_id : Option String
  data : Option String
  artifact_id : Option String
  mime_type : Option String
  metadata : Option Json
  representations : Option (List (String × MediaRepresentation))
  created_at : Int

/-- `KernelSpec`. -/
structure KernelSpec where
  name : String
  display_name : String
  language : String
deriving DecidableEq

/-- `LanguageInfo`. -/
structure LanguageInfo where
  name : String
  version : String
  mimetype : Option String
  file_extension : Option String
deriving DecidableEq

/-- `DocumentMetadata`. -/
structure DocumentMetadata where
  kernel_spec : Option KernelSpec
  language_info : Option LanguageInfo
  authors : List String
  tags : List String
  custom : List (String × String)
deriving DecidableEq

/-- `DocumentMetadata::default()`. -/
def defaultDocumentMetadata : DocumentMetadata :=
  ⟨none, none, [], [], []⟩

/-- `Document`. -/
structure Document where
  id : String
  title : String
  metadata : DocumentMetadata
  created_at : Int
  updated_at : Int
deriving DecidableEq

/-- `RuntimeStatus`. -/
inductive RuntimeStatus where
  | Starting | Ready | Busy | Restarting | Terminated
deriving DecidableEq

/-- `RuntimeSession`. -/
structure RuntimeSession where
  session_id : String
  runtime_id : String
  runtime_type : String
  status : RuntimeStatus
  is_active : Bool
  can_execute_code : Bool
  can_execute_sql : Bool
  can_execute_ai : Bool
  available_ai_models : Option (List String)
  last_renewed_at : Option Int
  expires_at : Option Int
deriving DecidableEq

/-- `DocumentProjectionState`. -/
structure DocumentProjectionState where
  documents : List (String × Document)
  cells : List (String × Cell)
  outputs : List (String × CellOutput)
  runtime_sessions : List (String × RuntimeSession)
  last_processed_timestamp : Int

/-- `DocumentProjectionState::default()` = `DocumentMaterializer::initial_state()`. -/
def initialState : DocumentProjectionState :=
  ⟨[], [], [], [], 0⟩

/-- Rust `i64::cmp`. -/
def intCmp (a b : Int) : Ordering :=
  if a < b then .lt else if b < a then .gt else .eq

/-- The comparator of `get_document_cells`: indices compare as strings, an
index sorts before a missing one, and two missing indices compare by
`created_at`. -/
def cellOrdCmp (a b : Cell) : Ordering :=
  match a.fractional_index, b.fractional_index with
  | some aIdx, some bIdx => strCmpCC aIdx.data bIdx.data
  | some _, none => .lt
  | none, some _ => .gt
  | none, none => intCmp a.created_at b.created_at

/-- `sort_by` keeps `a` before `b` unless the comparator says `Greater`. -/
def cellLe (a b : Cell) : Bool :=
  !(cellOrdCmp a b == Ordering.gt)

/-- `get_document_cells`: the document's cells (map iteration order), stably
sorted by `cellOrdCmp`. -/
def getDocumentCells (st : DocumentProjectionState) (document_id : String) :
    List Cell :=
  stableSort cellLe
    ((st.cells.map (·.2)).filter (fun c => c.document_id == document_id))

/-! ### serde decoding of the metadata-bearing payload fields -/

/-- serde: required field of an object (missing or undecodable fails). -/
def reqField {α : Type} (fs : List (String × Json)) (k : String)
    (dec : Json → Option α) : Option α :=
  (lookupKV fs k).bind dec

/-- serde: `Option<T>` field of an object (missing or `null` is `None`). -/
def optField {α : Type} (fs : List (String × Json)) (k : String)
    (dec : Json → Option α) : Option (Option α) :=
  match lookupKV fs k with
  | none => some none
  | some .null => some none
  | some v => (dec v).map some

/-- serde: `Vec<String>`. -/
def decodeStringList : Json → Option (List String)
  | .arr xs => xs.mapM Json.asStr
  | _ => none

/-- serde: `HashMap<String, String>`. -/
def decodeStringMap : Json → Option (List (String × String))
  | .obj fs => fs.mapM (fun p => (Json.asStr p.2).map (fun v => (p.1, v)))
  | _ => none

/-- serde: `HashMap<String, serde_json::Value>`. -/
def decodeJsonMap : Json → Option (List (String × Json))
  | .obj fs => some fs
  | _ => none

/-- serde derive for `KernelSpec`. -/
def decodeKernelSpec : Json → Option KernelSpec
  | .obj fs => do
    let name ← reqField fs "name" Json.asStr
    let display_name ← reqField fs "display_name" Json.asStr
    let language ← reqField fs "language" Json.asStr
    some ⟨name, display_name, language⟩
  | _ => none

/-- serde derive for `LanguageInfo`. -/
def decodeLanguageInfo : Json → Option LanguageInfo
  | .obj fs => do
    let name ← reqField fs "name" Json.asStr
    let version ← reqField fs "version" Json.asStr
    let mimetype ← optField fs "mimetype" Json.asStr
    let file_extension ← optField fs "file_extension" Json.asStr
    some ⟨name, version, mimetype, file_extension⟩
  | _ => none

/-- serde derive for `DocumentMetadata`. -/
def decodeDocumentMetadata : Json → Option DocumentMetadata
  | .obj fs => do
    let kernel_spec ← optField fs "kernel_spec" decodeKernelSpec
    let language_info ← optField fs "language_info" decodeLanguageInfo
    let authors ← reqField fs "authors" decodeStringList
    let tags ← reqField fs "tags" decodeStringList
    let custom ← reqField fs "custom" decodeStringMap
    some ⟨kernel_spec, language_info, authors, tags, custom⟩
  | _ => none

/-- serde for the internally tagged `MediaRepresentation`. -/
def decodeMediaRepresentation : Json → Option MediaRepresentation
  | .obj fs =>
    match lookupKV fs "type" with
    | some (.str "inline") => do
      let data ← lookupKV fs "data"
      let metadata ← optField fs "metadata" decodeJsonMap
      some (.Inline data metadata)
    | some (.str "artifact") => do
      let artifact_id ← reqField fs "artifact_id" Json.asStr
      let metadata ← optField fs "metadata" decodeJsonMap
      some (.Artifact artifact_id metadata)
    | _ => none
  | _ => none

/-- serde for `HashMap<String, MediaRepresentation>`. -/
def decodeRepresentations : Json → Option (List (String × MediaRepresentation))
  | .obj fs => fs.mapM (fun p => (decodeMediaRepresentation p.2).map (fun v => (p.1, v)))
  | _ => none

/-! ## The document materializer (DocumentMaterializer::apply_event) -/

/-- `DocumentMaterializer::handles_event_type`. -/
def handlesEventType (event_type : String) : Bool :=
  event_type == "DocumentCreated" ||
  event_type == "DocumentTitleUpdated" ||
  event_type == "DocumentMetadataUpdated" ||
  event_type == "CellCreated" ||
  event_type == "CellSourceUpdated" ||
  event_type == "CellExecutionStateChanged" ||
  event_type == "CellOutputCreated" ||
  event_type == "CellMoved" ||
  event_type == "CellDeleted" ||
  event_type == "DocumentDeleted"

/-- `"DocumentCreated"` arm. -/
def applyDocumentCreated (nS : DocumentProjectionState) (event : Event) :
    Except EventError DocumentProjectionState :=
  let document : Document :=
    { id := event.aggregate_id
      title := ((event.payload.get? "title").bind Json.asStr).getD "Untitled"
      metadata :=
        (decodeDocumentMetadata ((event.payload.get? "metadata").getD .null)).getD
          defaultDocumentMetadata
      created_at := event.timestamp
      updated_at := event.timestamp }
  .ok { nS with documents := insertKV nS.documents event.aggregate_id document }

/-- `"DocumentTitleUpdated"` arm. -/
def applyDocumentTitleUpdated (nS : DocumentProjectionState) (event : Event) :
    Except EventError DocumentProjectionState :=
  match lookupKV nS.documents event.aggregate_id with
  | none => .ok nS
  | some document =>
    match jsonGetStr event.payload "title" with
    | none => .ok nS
    | some title =>
      let document1 := { document with title := title, updated_at := event.timestamp }
      .ok { nS with documents := updateKV nS.documents event.aggregate_id document1 }

/-- `"DocumentMetadataUpdated"` arm. -/
def applyDocumentMetadataUpdated (nS : DocumentProjectionState) (event : Event) :
    Except EventError DocumentProjectionState :=
  match lookupKV nS.documents event.aggregate_id with
  | none => .ok nS
  | some document =>
    match event.payload.get? "metadata" with
    | none => .ok nS
    | some metadata =>
      let document1 := { document with
        metadata := (decodeDocumentMetadata metadata).getD document.metadata
        updated_at := event.timestamp }
      .ok { nS with documents := updateKV nS.documents event.aggregate_id document1 }

/-- Bump the owning document's `updated_at` when it exists (the shared tail of
the cell-mutating arms). -/
def bumpDocUpdatedAt (nS : DocumentProjectionState) (aggregate_id : String)
    (ts : Int) : DocumentProjectionState :=
  match lookupKV nS.documents aggregate_id with
  | none => nS
  | some document =>
    let document1 := { document with updated_at := ts }
    { nS with documents := updateKV nS.documents aggregate_id document1 }

/-- `"CellCreated"` arm. -/
def applyCellCreated (nS : DocumentProjectionState) (event : Event) :
    Except EventError DocumentProjectionState :=
  match jsonGetStr event.payload "cell_id" with
  | none => .error (.ValidationError "Missing cell_id")
  | some cell_id =>
    match jsonGetStr event.payload "cell_type" with
    | none => .error (.ValidationError "Missing cell_type")
    | some cell_type_str =>
      let cellTypeE : Except EventError CellType :=
        if cell_type_str = "code" then .ok .Code
        else if cell_type_str = "markdown" then .ok .Markdown
        else if cell_type_str = "sql" then .ok .Sql
        else if cell_type_str = "ai" then .ok .Ai
        else if cell_type_str = "raw" then .ok .Raw
        else .error (.ValidationError ("Invalid cell_type: " ++ cell_type_str))
      match cellTypeE with
      | .error e => .error e
      | .ok cell_type =>
        let cd := event.payload
        let cell : Cell :=
          { id := cell_id
            cell_type := cell_type
            source := (jsonGetStr cd "source").getD ""
            fractional_index := jsonGetStr cd "fractional_index"
            execution_count := (cd.get? "execution_count").bind Json.asU64
            execution_state := .Idle
            assigned_runtime_session := none
            last_execution_duration_ms := none
            sql_connection_id := jsonGetStr cd "sql_connection_id"
            sql_result_variable := jsonGetStr cd "sql_result_variable"
            ai_provider := jsonGetStr cd "ai_provider"
            ai_model := jsonGetStr cd "ai_model"
            ai_settings := cd.get? "ai_settings"
            source_visible := ((cd.get? "source_visible").bind Json.asBool).getD true
            output_visible := ((cd.get? "output_visible").bind Json.asBool).getD true
            ai_context_visible :=
              ((cd.get? "ai_context_visible").bind Json.asBool).getD true
            created_by := (jsonGetStr cd "created_by").getD "system"
            document_id := event.aggregate_id
            created_at := event.timestamp
            updated_at := event.timestamp }
        let nS2 := { nS with cells := insertKV nS.cells cell_id cell }
        .ok (bumpDocUpdatedAt nS2 event.aggregate_id event.timestamp)

/-- `"CellSourceUpdated"` arm: `source` is read through `if let`, so a missing
or non-string `source` silently leaves the text unchanged while `updated_at`
is still bumped. -/
def applyCellSourceUpdated (nS : DocumentProjectionState) (event : Event) :
    Except EventError DocumentProjectionState :=
  match jsonGetStr event.payload "cell_id" with
  | none => .error (.ValidationError "Missing cell_id")
  | some cell_id =>
    match lookupKV nS.cells cell_id with
    | none => .ok nS
    | some cell =>
      let cell1 :=
        match jsonGetStr event.payload "source" with
        | some source => { cell with source := source }
        | none => cell
      let cell2 := { cell1 with updated_at := event.timestamp }
      let nS2 := { nS with cells := updateKV nS.cells cell_id cell2 }
      .ok (bumpDocUpdatedAt nS2 event.aggregate_id event.timestamp)

/-- `"CellExecutionStateChanged"` arm. -/
def applyCellExecutionStateChanged (nS : DocumentProjectionState)
    (event : Event) : Except EventError DocumentProjectionState :=
  match jsonGetStr event.payload "cell_id" with
  | none => .error (.ValidationError "Missing cell_id")
  | some cell_id =>
    match lookupKV nS.cells cell_id with
    | none => .ok nS
    | some cell =>
      let cell1 :=
        match jsonGetStr event.payload "execution_state" with
        | none => cell
        | some state_str =>
          { cell with execution_state :=
              if state_str = "idle" then .Idle
              else if state_str = "queued" then .Queued
              else if state_str = "running" then .Running
              else if state_str = "completed" then .Completed
              else if state_str = "error" then .Error
              else cell.execution_state }
      let cell2 :=
        match jsonGetStr event.payload "assigned_runtime_session" with
        | none => cell1
        | some rs => { cell1 with assigned_runtime_session := some rs }
      let cell3 :=
        match (event.payload.get? "execution_duration_ms").bind Json.asU64 with
        | none => cell2
        | some duration => { cell2 with last_execution_duration_ms := some duration }
      let cell4 := { cell3 with updated_at := event.timestamp }
      .ok { nS with cells := updateKV nS.cells cell_id cell4 }

/-- `"CellOutputCreated"` arm. -/
def applyCellOutputCreated (nS : DocumentProjectionState) (event : Event) :
    Except EventError DocumentProjectionState :=
  match jsonGetStr event.payload "output_id" with
  | none => .error (.ValidationError "Missing output_id")
  | some output_id =>
    match jsonGetStr event.payload "cell_id" with
    | none => .error (.ValidationError "Missing cell_id")
    | some cell_id =>
      match jsonGetStr event.payload "output_type" with
      | none => .error (.ValidationError "Missing output_type")
      | some output_type_str =>
        let outputTypeE : Except EventError OutputType :=
          if output_type_str = "multimedia_display" then .ok .MultimediaDisplay
          else if output_type_str = "multimedia_result" then .ok .MultimediaResult
          else if output_type_str = "terminal" then .ok .Terminal
          else if output_type_str = "markdown" then .ok .Markdown
          else if output_type_str = "error" then .ok .Error
          else .error (.ValidationError ("Invalid output_type: " ++ output_type_str))
        match outputTypeE with
        | .error e => .error e
        | .ok output_type =>
          let od := event.payload
          let output : CellOutput :=
            { id := output_id
              cell_id := cell_id
              output_type := output_type
              position := ((od.get? "position").bind Json.asF64).getD 0
              stream_name := jsonGetStr od "stream_name"
              execution_count := (od.get? "execution_count").bind Json.asU64
              display_id := jsonGetStr od "display_id"
              data := jsonGetStr od "data"
              artifact_id := jsonGetStr od "artifact_id"
              mime_type := jsonGetStr od "mime_type"
              metadata := od.get? "metadata"
              representations := (od.get? "representations").bind decodeRepresentations
              created_at := event.timestamp }
          .ok { nS with outputs := insertKV nS.outputs output_id output }

/-- `"CellMoved"` arm. -/
def applyCellMoved (nS : DocumentProjectionState) (event : Event) :
    Except EventError DocumentProjectionState :=
  match jsonGetStr event.payload "cell_id" with
  | none => .error (.ValidationError "Missing cell_id")
  | some cell_id =>
    match jsonGetStr event.payload "fractional_index" with
    | none => .error (.ValidationError "Missing fractional_index")
    | some new_fractional_index =>
      match lookupKV nS.cells cell_id with
      | none => .ok nS
      | some cell =>
        let cell1 := { cell with fractional_index := some new_fractional_index,
                                 updated_at := event.timestamp }
        let nS2 := { nS with cells := updateKV nS.cells cell_id cell1 }
        .ok (bumpDocUpdatedAt nS2 event.aggregate_id event.timestamp)

/-- `"CellDeleted"` arm. -/
def applyCellDeleted (nS : DocumentProjectionState) (event : Event) :
    Except EventError DocumentProjectionState :=
  match jsonGetStr event.payload "cell_id" with
  | none => .error (.ValidationError "Missing cell_id")
  | some cell_id =>
    let nS2 := { nS with
      cells := removeKV nS.cells cell_id
      outputs := nS.outputs.filter (fun p => !(p.2.cell_id == cell_id)) }
    .ok (bumpDocUpdatedAt nS2 event.aggregate_id event.timestamp)

/-- `"DocumentDeleted"` arm: removes only the document (cells and outputs are
left orphaned, as the source notes). -/
def applyDocumentDeleted (nS : DocumentProjectionState) (event : Event) :
    Except EventError DocumentProjectionState :=
  .ok { nS with documents := removeKV nS.documents event.aggregate_id }

/-- `DocumentMaterializer::apply_event`: clone the state, stamp
`last_processed_timestamp`, then dispatch on the event kind (unknown kinds are
ignored). -/
def applyEvent (state : DocumentProjectionState) (event : Event) :
    Except EventError DocumentProjectionState :=
  let nS := { state with last_processed_timestamp := event.timestamp }
  if event.event_type = "DocumentCreated" then applyDocumentCreated nS event
  else if event.event_type = "DocumentTitleUpdated" then
    applyDocumentTitleUpdated nS event
  else if event.event_type = "DocumentMetadataUpdated" then
    applyDocumentMetadataUpdated nS event
  else if event.event_type = "CellCreated" then applyCellCreated nS event
  else if event.event_type = "CellSourceUpdated" then
    applyCellSourceUpdated nS event
  else if event.event_type = "CellExecutionStateChanged" then
    applyCellExecutionStateChanged nS event
  else if event.event_type = "CellOutputCreated" then
    applyCellOutputCreated nS event
  else if event.event_type = "CellMoved" then applyCellMoved nS event
  else if event.event_type = "CellDeleted" then applyCellDeleted nS event
  else if event.event_type = "DocumentDeleted" then applyDocumentDeleted nS event
  else .ok nS

/-! ## The document projection (DocumentProjection) -/

/-- `DocumentProjection`. -/
structure DocumentProjection where
  state : DocumentProjectionState

/-- `DocumentProjection::new()`. -/
def DocumentProjection.new : DocumentProjection :=
  ⟨initialState⟩

/-- The error wrapping both projection methods apply to a materialization
failure. -/
def matFailMsg (e : EventError) : EventError :=
  .ValidationError ("Materialization failed: " ++ displayEventError e)

/-- The fold of `rebuild_from_events`: apply every handled event in order,
aborting on the first failure. -/
def rebuildGo (st : DocumentProjectionState) :
    List Event → Except EventError DocumentProjectionState
  | [] => .ok st
  | e :: rest =>
    if handlesEventType e.event_type then
      match applyEvent st e with
      | .ok st1 => rebuildGo st1 rest
      | .error er => .error (matFailMsg er)
    else rebuildGo st rest

/-- `rebuild_from_events`: on success the freshly folded state replaces the
projection's state; on failure the projection keeps its previous state. -/
def rebuildFromEvents (p : DocumentProjection) (events : List Event) :
    Except EventError Unit × DocumentProjection :=
  match rebuildGo initialState events with
  | .ok st => (.ok (), ⟨st⟩)
  | .error er => (.error er, p)

/-- The loop of `apply_new_events`: an event is applied only when its
timestamp is beyond the high-water mark and its kind is handled; a failure
stops the loop with the already-applied prefix committed. -/
def applyNewGo (st : DocumentProjectionState) :
    List Event → Except EventError Unit × DocumentProjectionState
  | [] => (.ok (), st)
  | e :: rest =>
    if st.last_processed_timestamp < e.timestamp ∧ handlesEventType e.event_type then
      match applyEvent st e with
      | .ok st1 => applyNewGo st1 rest
      | .error er => (.error (matFailMsg er), st)
    else applyNewGo st rest

/-- `apply_new_events`. -/
def applyNewEvents (p : DocumentProjection) (events : List Event) :
    Except EventError Unit × DocumentProjection :=
  let r := applyNewGo p.state events
  (r.1, ⟨r.2⟩)

/-! ## The GET events handler (server/src/lib.rs) -/

/-- The `limit` / `offset` / `since_timestamp` query of `GET /stores/{id}/events`. -/
structure GetEventsQuery where
  limit : Option Nat
  offset : Option Nat
  since_timestamp : Option Int

/-- The response body `{events, total_count, store_id}`. -/
structure GetEventsResponse where
  events : List Event
  total_count : Nat
  store_id : String

/-- The timestamp filter of the handler (`retain` when `since_timestamp` is
supplied). -/
def filterSince (events : List Event) : Option Int → List Event
  | some since => events.filter (fun e => decide (since < e.timestamp))
  | none => events

/-- The `get_events` HTTP handler: fetch the store's events, filter by
`since_timestamp`, record `total_count`, then paginate only when both `limit`
and `offset` are present. -/
def getEventsHandler (s : InMemoryEventStore) (store_id : String)
    (q : GetEventsQuery) : GetEventsResponse :=
  let events0 := getEvents s store_id
  let events1 := filterSince events0 q.since_timestamp
  let total_count := events1.length
  let events2 :=
    match q.limit, q.offset with
    | some limit, some offset => (events1.drop offset).take limit
    | _, _ => events1
  ⟨events2, total_count, store_id⟩

/-! ## Auxiliary definitions used by the claim statements -/

/-- `Result::is_ok`. -/
def exceptIsOk {ε α : Type} : Except ε α → Bool
  | .ok _ => true
  | .error _ => false

/-- The events of one aggregate, in append order. -/
def aggEvents (s : InMemoryEventStore) (agg : String) : List Event :=
  s.events.filter (fun e => e.aggregate_id == agg)

/-- The version sequence `1, 2, ..., n`. -/
def versionList (n : Nat) : List Int :=
  (List.range n).map (fun i : Nat => (i : Int) + 1)

/-- The store invariant: per-aggregate versions are exactly `1..n` in append
order, the version map tracks the per-aggregate event count, and event ids
are pairwise distinct. -/
def storeInv (s : InMemoryEventStore) : Prop :=
  (∀ agg, (aggEvents s agg).map (fun e => e.version)
      = versionList (aggEvents s agg).length)
  ∧ (∀ agg, getLatestVersion s agg = ((aggEvents s agg).length : Int))
  ∧ (s.events.map (fun e => e.id)).Nodup

/-- Decidable equality for `Except` results. -/
instance {ε α : Type} [DecidableEq ε] [DecidableEq α] :
    DecidableEq (Except ε α) := fun a b =>
  match a, b with
  | .ok x, .ok y =>
    if h : x = y then .isTrue (by rw [h]) else .isFalse (by simp [h])
  | .error x, .error y =>
    if h : x = y then .isTrue (by rw [h]) else .isFalse (by simp [h])
  | .ok _, .error _ => .isFalse (by simp)
  | .error _, .ok _ => .isFalse (by simp)

/-- Lexicographic strict order on digit sequences, mirroring `strLtCC`
through `char_pos`/`char_at`. -/
def lexLtN : List Nat → List Nat → Bool
  | [], [] => false
  | [], _ :: _ => true
  | _ :: _, [] => false
  | a :: as1, b :: bs1 =>
    if a < b then true else if b < a then false else lexLtN as1 bs1

/-! ### Concrete inputs used by witnesses and counterexamples -/

/-- A `DocumentCreated` event at timestamp 1. -/
def cxDocCreated : Event :=
  ⟨"e1", "DocumentCreated", "d", Json.obj [("title", Json.str "T")], 1, 1⟩

/-- A `DocumentTitleUpdated` event sharing timestamp 1 with `cxDocCreated`. -/
def cxTitleUpdated : Event :=
  ⟨"e2", "DocumentTitleUpdated", "d", Json.obj [("title", Json.str "X")], 1, 2⟩

/-- A `CellCreated` event at the later timestamp 2. -/
def wCellCreated : Event :=
  ⟨"w2", "CellCreated", "d",
    Json.obj [("cell_id", Json.str "c"), ("cell_type", Json.str "code")],
    2, 2⟩

/-- An example document. -/
def exDoc : Document := ⟨"d", "T", defaultDocumentMetadata, 1, 1⟩

/-- An example cell `c` of document `d`. -/
def exCell : Cell :=
  ⟨"c", .Code, "print(1)", some "a0", none, .Idle, none, none, none, none,
    none, none, none, true, true, true, "u", "d", 1, 1⟩

/-- A second cell `c2` of document `d`. -/
def exCell2 : Cell := { exCell with id := "c2" }

/-- An output of cell `c`. -/
def exOutC : CellOutput :=
  ⟨"o1", "c", .Terminal, 0, none, none, none, some "out", none, none, none,
    none, 1⟩

/-- An output of cell `c2`. -/
def exOutOther : CellOutput :=
  ⟨"o2", "c2", .Terminal, 0, none, none, none, some "out2", none, none, none,
    none, 1⟩

/-- An example projection state with one document, two cells and an output of
each. -/
def exState : DocumentProjectionState :=
  ⟨[("d", exDoc)], [("c", exCell), ("c2", exCell2)],
    [("o1", exOutC), ("o2", exOutOther)], [], 1⟩

/-- `CellSourceUpdated` for the existing cell `c` with no `source` key. -/
def evCellSourceUpdatedNoSource : Event :=
  ⟨"e3", "CellSourceUpdated", "d", Json.obj [("cell_id", Json.str "c")], 5, 3⟩

/-- `CellDeleted` for cell `c`. -/
def evCellDeleted : Event :=
  ⟨"e4", "CellDeleted", "d", Json.obj [("cell_id", Json.str "c")], 5, 3⟩

/-- `DocumentDeleted` for document `d`. -/
def evDocumentDeleted : Event :=
  ⟨"e5", "DocumentDeleted", "d", Json.obj [], 5, 3⟩

/-- A cell with fractional index `"a0"` created at time 5. -/
def c8CellA : Cell := { exCell with id := "c1", created_at := 5 }

/-- A cell with the same fractional index `"a0"` created earlier, at time 3,
but stored after `c8CellA` in the map's iteration order. -/
def c8CellB : Cell := { exCell with id := "c2", created_at := 3 }

/-- A state holding the two equal-index cells. -/
def c8State : DocumentProjectionState :=
  ⟨[], [("c1", c8CellA), ("c2", c8CellB)], [], [], 0⟩

/-! ## Lemmas about the association-list map operations -/

theorem lookupKV_cons {α : Type} (p : String × α) (rest : List (String × α))
    (k : String) :
    lookupKV (p :: rest) k = if p.1 = k then some p.2 else lookupKV rest k :=
  rfl

theorem containsKV_cons {α : Type} (p : String × α) (rest : List (String × α))
    (k : String) :
    containsKV (p :: rest) k = ((p.1 == k) || containsKV rest k) := by
  simp [containsKV]

theorem removeKV_cons {α : Type} (p : String × α) (rest : List (String × α))
    (k : String) :
    removeKV (p :: rest) k
      = if p.1 = k then removeKV rest k else p :: removeKV rest k := by
  by_cases hp : p.1 = k <;> simp [removeKV, List.filter_cons, hp]

theorem lookupKV_map_replace_self {α : Type} (l : List (String × α))
    (k : String) (v : α) (hc : containsKV l k = true) :
    lookupKV (l.map (fun p => if p.1 = k then (k, v) else p)) k = some v := by
  induction l with
  | nil => simp [containsKV] at hc
  | cons p rest ih =>
    rw [containsKV_cons] at hc
    by_cases hp : p.1 = k
    · simp [lookupKV, hp]
    · have hrest : containsKV rest k = true := by
        simp [hp] at hc
        exact hc
      simpa [lookupKV, hp] using ih hrest

theorem lookupKV_map_replace_ne {α : Type} (l : List (String × α))
    (k k' : String) (v : α) (h : k' ≠ k) :
    lookupKV (l.map (fun p => if p.1 = k then (k, v) else p)) k'
      = lookupKV l k' := by
  induction l with
  | nil => rfl
  | cons p rest ih =>
    by_cases hp : p.1 = k
    · simp [lookupKV, hp, Ne.symm h, ih]
    · simp [lookupKV, hp, ih]

theorem lookupKV_append_single_self {α : Type} (l : List (String × α))
    (k : String) (v : α) (hc : ¬(containsKV l k = true)) :
    lookupKV (l ++ [(k, v)]) k = some v := by
  induction l with
  | nil => simp [lookupKV]
  | cons p rest ih =>
    rw [containsKV_cons] at hc
    have hp : ¬(p.1 = k) := by
      intro hh
      simp [hh] at hc
    have hrest : ¬(containsKV rest k = true) := by
      intro hh
      simp [hh] at hc
    simpa [lookupKV, hp] using ih hrest

theorem lookupKV_append_single_ne {α : Type} (l : List (String × α))
    (k k' : String) (v : α) (h : k' ≠ k) :
    lookupKV (l ++ [(k, v)]) k' = lookupKV l k' := by
  induction l with
  | nil => simp [lookupKV, Ne.symm h]
  | cons p rest ih => by_cases hp : p.1 = k' <;> simp [lookupKV, hp, ih]

theorem lookupKV_insertKV_self {α : Type} (l : List (String × α)) (k : String)
    (v : α) : lookupKV (insertKV l k v) k = some v := by
  unfold insertKV
  split
  · exact lookupKV_map_replace_self l k v (by assumption)
  · exact lookupKV_append_single_self l k v (by assumption)

theorem lookupKV_insertKV_ne {α : Type} (l : List (String × α)) (k k' : String)
    (v : α) (h : k' ≠ k) : lookupKV (insertKV l k v) k' = lookupKV l k' := by
  unfold insertKV
  split
  · exact lookupKV_map_replace_ne l k k' v h
  · exact lookupKV_append_single_ne l k k' v h

theorem lookupKV_updateKV_self {α : Type} (l : List (String × α)) (k : String)
    (v w : α) (h : lookupKV l k = some w) :
    lookupKV (updateKV l k v) k = some v := by
  induction l with
  | nil => simp [lookupKV] at h
  | cons p rest ih =>
    by_cases hp : p.1 = k
    · simp [updateKV, lookupKV, hp]
    · simp [lookupKV, hp] at h
      simpa [updateKV, lookupKV, hp] using ih h

theorem lookupKV_updateKV_ne {α : Type} (l : List (String × α)) (k k' : String)
    (v : α) (h : k' ≠ k) : lookupKV (updateKV l k v) k' = lookupKV l k' := by
  simpa [updateKV] using lookupKV_map_replace_ne l k k' v h

theorem lookupKV_removeKV_self {α : Type} (l : List (String × α)) (k : String) :
    lookupKV (removeKV l k) k = none := by
  induction l with
  | nil => simp [removeKV, lookupKV]
  | cons p rest ih =>
    rw [removeKV_cons]
    by_cases hp : p.1 = k
    · simpa [hp] using ih
    · simpa [lookupKV, hp] using ih

theorem lookupKV_removeKV_ne {α : Type} (l : List (String × α)) (k k' : String)
    (h : k' ≠ k) : lookupKV (removeKV l k) k' = lookupKV l k' := by
  induction l with
  | nil => simp [removeKV, lookupKV]
  | cons p rest ih =>
    rw [removeKV_cons]
    by_cases hp : p.1 = k
    · simpa [hp, lookupKV, Ne.symm h] using ih
    · by_cases hp' : p.1 = k' <;> simp [hp, lookupKV, hp', h, ih]

/-! ## Lemmas about the stable sort -/

theorem insertLe_perm {α : Type} (le : α → α → Bool) (x : α) (l : List α) :
    List.Perm (insertLe le x l) (x :: l) := by
  induction l with
  | nil => simp [insertLe]
  | cons y ys ih =>
    unfold insertLe
    split
    · exact ((ih.cons y).trans (List.Perm.swap x y ys))
    · exact List.Perm.refl _

theorem stableSort_perm {α : Type} (le : α → α → Bool) (l : List α) :
    List.Perm (stableSort le l) l := by
  have go : ∀ (l acc : List α),
      List.Perm (l.foldl (fun acc x => insertLe le x acc) acc) (acc ++ l) := by
    intro l
    induction l with
    | nil => simp
    | cons x xs ih =>
      intro acc
      have h1 := ih (insertLe le x acc)
      have h2 : List.Perm (insertLe le x acc ++ xs) ((x :: acc) ++ xs) :=
        (insertLe_perm le x acc).append_right xs
      have h3 : List.Perm ((x :: acc) ++ xs) (acc ++ x :: xs) :=
        List.perm_middle.symm
      exact (h1.trans h2).trans h3
  simpa [stableSort] using go l []

theorem insertLe_of_all_le {α : Type} (le : α → α → Bool) (x : α) (l : List α)
    (h : ∀ y ∈ l, le y x = true) : insertLe le x l = l ++ [x] := by
  induction l with
  | nil => simp [insertLe]
  | cons y ys ih =>
    have hy : le y x = true := h y (by simp)
    simp [insertLe, hy, ih (fun z hz => h z (by simp [hz]))]

theorem stableSort_eq_self_of_pairwise {α : Type} (le : α → α → Bool)
    (l : List α) (h : List.Pairwise (fun a b => le a b = true) l) :
    stableSort le l = l := by
  have go : ∀ (l acc : List α), List.Pairwise (fun a b => le a b = true) l →
      (∀ x ∈ l, ∀ y ∈ acc, le y x = true) →
      l.foldl (fun acc x => insertLe le x acc) acc = acc ++ l := by
    intro l
    induction l with
    | nil => simp
    | cons x xs ih =>
      intro acc hp hacc
      have h1 : insertLe le x acc = acc ++ [x] :=
        insertLe_of_all_le le x acc (hacc x (by simp))
      have h2 : ∀ z ∈ xs, ∀ y ∈ acc ++ [x], le y z = true := by
        intro z hz y hy
        rcases List.mem_append.mp hy with hy | hy
        · exact hacc z (by simp [hz]) y hy
        · have : y = x := by simpa using hy
          subst this
          exact (List.pairwise_cons.mp hp).1 z hz
      calc (xs.foldl (fun acc x => insertLe le x acc) (insertLe le x acc))
          = (acc ++ [x]) ++ xs := by
            rw [h1]
            exact ih (acc ++ [x]) (List.pairwise_cons.mp hp).2 h2
        _ = acc ++ x :: xs := by simp
  simpa [stableSort] using go l [] h (by simp)

theorem insertLe_pairwise {α : Type} (le : α → α → Bool)
    (htot : ∀ a b, le a b = true ∨ le b a = true)
    (htrans : ∀ a b c, le a b = true → le b c = true → le a c = true)
    (x : α) (l : List α) (h : List.Pairwise (fun a b => le a b = true) l) :
    List.Pairwise (fun a b => le a b = true) (insertLe le x l) := by
  induction l with
  | nil => simp [insertLe]
  | cons y ys ih =>
    rcases List.pairwise_cons.mp h with ⟨hy, hys⟩
    unfold insertLe
    split
    · rename_i hle
      refine List.pairwise_cons.mpr ⟨?_, ih hys⟩
      intro z hz
      have := (insertLe_perm le x ys).mem_iff.mp hz
      rcases (by simpa using this) with hz1 | hz2
      · subst hz1; exact hle
      · exact hy z hz2
    · rename_i hnle
      have hxy : le x y = true := by
        rcases htot x y with h1 | h1
        · exact h1
        · exact absurd h1 hnle
      refine List.pairwise_cons.mpr ⟨?_, h⟩
      intro z hz
      rcases (by simpa using hz) with hz1 | hz2
      · subst hz1; exact hxy
      · exact htrans x y z hxy (hy z hz2)

theorem stableSort_pairwise {α : Type} (le : α → α → Bool)
    (htot : ∀ a b, le a b = true ∨ le b a = true)
    (htrans : ∀ a b c, le a b = true → le b c = true → le a c = true)
    (l : List α) :
    List.Pairwise (fun a b => le a b = true) (stableSort le l) := by
  have go : ∀ (l acc : List α), List.Pairwise (fun a b => le a b = true) acc →
      List.Pairwise (fun a b => le a b = true)
        (l.foldl (fun acc x => insertLe le x acc) acc) := by
    intro l
    induction l with
    | nil => intro acc h; simpa using h
    | cons x xs ih =>
      intro acc h
      exact ih _ (insertLe_pairwise le htot htrans x acc h)
  exact go l [] (by simp)

/-! ## Store invariants (claims C4, C5) -/

theorem versionList_succ (n : Nat) :
    versionList (n + 1) = versionList n ++ [(n : Int) + 1] := by
  simp [versionList, List.range_succ]

theorem storeInv_new : storeInv InMemoryEventStore.new := by
  refine ⟨?_, ?_, ?_⟩ <;>
    simp [aggEvents, versionList, getLatestVersion, lookupKV,
      InMemoryEventStore.new]

theorem storeInv_append (s : InMemoryEventStore) (e : Event)
    (h : storeInv s) : storeInv (appendEvent s e).2 := by
  obtain ⟨hver, hlat, hid⟩ := h
  by_cases hdup : s.events.any (fun e2 => e2.id == e.id) = true
  · have happ : (appendEvent s e).2 = s := by simp [appendEvent, hdup]
    rw [happ]
    exact ⟨hver, hlat, hid⟩
  · by_cases hv : e.version = getLatestVersion s e.aggregate_id + 1
    · have happ : (appendEvent s e).2 = { events := s.events ++ [e], version_map := insertKV s.version_map e.aggregate_id e.version } := by
        simp [appendEvent, hdup, hv]
      rw [happ]
      have hfilter : ∀ agg : String,
          (s.events ++ [e]).filter (fun ev => ev.aggregate_id == agg)
            = if e.aggregate_id = agg
              then s.events.filter (fun ev => ev.aggregate_id == agg) ++ [e]
              else s.events.filter (fun ev => ev.aggregate_id == agg) := by
        intro agg
        by_cases hagg : e.aggregate_id = agg <;>
          simp [List.filter_append, hagg]
      refine ⟨?_, ?_, ?_⟩
      · intro agg
        have hva := hver agg
        simp only [aggEvents] at hva ⊢
        rw [hfilter agg]
        by_cases hagg : e.aggregate_id = agg
        · rw [if_pos hagg]
          have hla := hlat agg
          simp only [aggEvents] at hla
          have hv2 : e.version
              = ((s.events.filter (fun ev => ev.aggregate_id == agg)).length
                  : Int) + 1 := by
            rw [hv, hagg, hla]
          simp only [List.map_append, List.map_cons, List.map_nil,
            List.length_append, List.length_cons, List.length_nil]
          rw [hva, hv2, versionList_succ]
        · rw [if_neg hagg]
          exact hva
      · intro agg
        have hla := hlat agg
        simp only [aggEvents, getLatestVersion] at hla ⊢
        rw [hfilter agg]
        by_cases hagg : e.aggregate_id = agg
        · rw [if_pos hagg, ← hagg, lookupKV_insertKV_self]
          simp only [Option.getD_some, List.length_append, List.length_cons,
            List.length_nil, hv, hagg, getLatestVersion, hla]
          push_cast
          ring
        · rw [if_neg hagg,
            lookupKV_insertKV_ne _ _ _ _ (fun hh => hagg hh.symm)]
          exact hla
      · have hnotin : e.id ∉ s.events.map (fun e2 => e2.id) := by
          intro hmem
          obtain ⟨e2, he2, heq⟩ := List.mem_map.mp hmem
          exact hdup (List.any_eq_true.mpr ⟨e2, he2, by simp [heq]⟩)
        show ((s.events ++ [e]).map (fun e2 => e2.id)).Nodup
        simp only [List.map_append, List.map_cons, List.map_nil]
        rw [List.nodup_append]
        exact ⟨hid, List.nodup_singleton _, by simpa using hnotin⟩
    · have happ : (appendEvent s e).2 = s := by simp [appendEvent, hdup, hv]
      rw [happ]
      exact ⟨hver, hlat, hid⟩

theorem storeInv_runAppends (es : List Event) : storeInv (runAppends es) := by
  have go : ∀ (es : List Event) (s : InMemoryEventStore), storeInv s →
      storeInv (es.foldl (fun s e => (appendEvent s e).2) s) := by
    intro es
    induction es with
    | nil => intro s h; simpa using h
    | cons e rest ih =>
      intro s h
      exact ih _ (storeInv_append s e h)
  exact go es _ storeInv_new

theorem versionList_pairwise (n : Nat) :
    List.Pairwise (fun a b : Int => a ≤ b) (versionList n) := by
  unfold versionList
  rw [List.pairwise_map]
  refine List.Pairwise.imp ?_ (List.pairwise_lt_range n)
  intro a b hab
  omega

/-- Claim C4: after any sequence of `append_event` calls from the empty store,
`get_events(agg)` is exactly the aggregate's sub-sequence of the log (so
sequence order equals version order), its versions are `1, 2, ..., n` with no
gaps or repeats, `get_latest_version` is the number of stored events for the
aggregate (in particular `0` when there are none, and otherwise the highest
stored version `n`), and no two stored events share an id. -/
theorem eventStore_invariants (es : List Event) (agg : String) :
    getEvents (runAppends es) agg
        = (runAppends es).events.filter (fun e => e.aggregate_id == agg)
    ∧ (getEvents (runAppends es) agg).map (fun e => e.version)
        = versionList (getEvents (runAppends es) agg).length
    ∧ getLatestVersion (runAppends es) agg
        = ((getEvents (runAppends es) agg).length : Int)
    ∧ ((runAppends es).events.map (fun e => e.id)).Nodup := by
  obtain ⟨hver, hlat, hid⟩ := storeInv_runAppends es
  have hpair : List.Pairwise
      (fun a b : Event => decide (a.version ≤ b.version) = true)
      (aggEvents (runAppends es) agg) := by
    have h1 := versionList_pairwise (aggEvents (runAppends es) agg).length
    rw [← hver agg, List.pairwise_map] at h1
    exact h1.imp (fun hab => decide_eq_true hab)
  have hsort : getEvents (runAppends es) agg = aggEvents (runAppends es) agg :=
    stableSort_eq_self_of_pairwise _ _ hpair
  refine ⟨hsort, ?_, ?_, hid⟩
  · rw [hsort]
    exact hver agg
  · rw [hsort]
    exact hlat agg

/-- Claim C5: `append_event` fails with `DuplicateEventId` exactly when a
stored event shares the id, fails with `InvalidVersion{expected, got}` exactly
when there is no duplicate and the version is not `latest + 1`, succeeds
otherwise, and the store is mutated only on success (append is atomic). -/
theorem appendEvent_spec (s : InMemoryEventStore) (e : Event) :
    ((appendEvent s e).1 = .error (.DuplicateEventId e.id)
        ↔ ∃ e2 ∈ s.events, e2.id = e.id)
    ∧ ((appendEvent s e).1
          = .error (.InvalidVersion (getLatestVersion s e.aggregate_id + 1)
              e.version)
        ↔ ((∀ e2 ∈ s.events, e2.id ≠ e.id)
            ∧ e.version ≠ getLatestVersion s e.aggregate_id + 1))
    ∧ ((appendEvent s e).1 = .ok ()
        ↔ ((∀ e2 ∈ s.events, e2.id ≠ e.id)
            ∧ e.version = getLatestVersion s e.aggregate_id + 1))
    ∧ (appendEvent s e).2
        = (if exceptIsOk (appendEvent s e).1 = true
            then { events := s.events ++ [e],
                   version_map := insertKV s.version_map e.aggregate_id
                     e.version }
            else s) := by
  by_cases hdup : s.events.any (fun e2 => e2.id == e.id) = true
  · have hex : ∃ e2 ∈ s.events, e2.id = e.id := by
      obtain ⟨e2, he2, heq⟩ := List.any_eq_true.mp hdup
      exact ⟨e2, he2, by simpa using heq⟩
    have hnall : ¬(∀ e2 ∈ s.events, e2.id ≠ e.id) := by
      intro hall
      obtain ⟨e2, he2, heq⟩ := hex
      exact hall e2 he2 heq
    have happ : appendEvent s e = (.error (.DuplicateEventId e.id), s) := by
      simp [appendEvent, hdup]
    rw [happ]
    refine ⟨⟨fun _ => hex, fun _ => rfl⟩, ?_, ?_, by simp [exceptIsOk]⟩
    · exact iff_of_false (by simp) (fun hh => hnall hh.1)
    · exact iff_of_false (by simp) (fun hh => hnall hh.1)
  · have hall : ∀ e2 ∈ s.events, e2.id ≠ e.id := by
      intro e2 he2 heq
      exact hdup (List.any_eq_true.mpr ⟨e2, he2, by simp [heq]⟩)
    have hnex : ¬(∃ e2 ∈ s.events, e2.id = e.id) := by
      rintro ⟨e2, he2, heq⟩
      exact hall e2 he2 heq
    by_cases hv : e.version = getLatestVersion s e.aggregate_id + 1
    · have happ : appendEvent s e = (.ok (), { events := s.events ++ [e], version_map := insertKV s.version_map e.aggregate_id e.version }) := by
        simp [appendEvent, hdup, hv]
      rw [happ]
      refine ⟨iff_of_false (by simp) hnex,
        iff_of_false (by simp) (fun hh => hh.2 hv),
        iff_of_true rfl ⟨hall, hv⟩, by simp [exceptIsOk]⟩
    · have happ : appendEvent s e = (.error (.InvalidVersion (getLatestVersion s e.aggregate_id + 1) e.version), s) := by
        simp [appendEvent, hdup, hv]
      rw [happ]
      refine ⟨iff_of_false (by simp) hnex,
        iff_of_true rfl ⟨hall, hv⟩,
        iff_of_false (by simp) (fun hh => hv hh.2), by simp [exceptIsOk]⟩

/-- Claim C10: in the GET events handler, `total_count` is always the size of
the timestamp-filtered list before pagination, the full filtered list is
returned whenever `limit` or `offset` is absent, and pagination
(`skip offset`, `take limit`) applies exactly when both are present. -/
theorem getEventsHandler_pagination (s : InMemoryEventStore)
    (store_id : String) (lim off : Option Nat) (l o : Nat)
    (since : Option Int) :
    (getEventsHandler s store_id ⟨lim, off, since⟩).total_count
        = (filterSince (getEvents s store_id) since).length
    ∧ (getEventsHandler s store_id ⟨none, off, since⟩).events
        = filterSince (getEvents s store_id) since
    ∧ (getEventsHandler s store_id ⟨lim, none, since⟩).events
        = filterSince (getEvents s store_id) since
    ∧ (getEventsHandler s store_id ⟨some l, some o, since⟩).events
        = ((filterSince (getEvents s store_id) since).drop o).take l := by
  refine ⟨rfl, ?_, ?_, rfl⟩
  · cases off <;> rfl
  · cases lim <;> rfl

/-! ## The cell comparator is a total preorder (claim C8) -/

theorem strCmpCC_gt_iff_lt :
    ∀ (a b : List Char), strCmpCC a b = .gt ↔ strCmpCC b a = .lt := by
  intro a
  induction a with
  | nil => intro b; cases b <;> simp [strCmpCC]
  | cons x xs ih =>
    intro b
    cases b with
    | nil => simp [strCmpCC]
    | cons y ys =>
      simp only [strCmpCC]
      by_cases h1 : x < y
      · have h2 : ¬(y < x) := asymm h1
        simp [h1, h2]
      · by_cases h2 : y < x
        · simp [h1, h2]
        · simp [h1, h2, ih ys]

theorem strCmpCC_ngt_trans :
    ∀ (a b c : List Char), strCmpCC a b ≠ .gt → strCmpCC b c ≠ .gt →
      strCmpCC a c ≠ .gt := by
  intro a
  induction a with
  | nil =>
    intro b c _ _
    cases c <;> simp [strCmpCC]
  | cons x xs ih =>
    intro b c h1 h2
    cases b with
    | nil => simp [strCmpCC] at h1
    | cons y ys =>
      cases c with
      | nil => simp [strCmpCC] at h2
      | cons z zs =>
        simp only [strCmpCC] at h1 h2 ⊢
        by_cases hxy : x < y
        · by_cases hyz : y < z
          · have hxz : x < z := lt_trans hxy hyz
            simp [hxz]
          · by_cases hzy : z < y
            · simp [hyz, hzy] at h2
            · have hyz' : y = z := le_antisymm (not_lt.mp hzy) (not_lt.mp hyz)
              simp [hyz' ▸ hxy]
        · by_cases hyx : y < x
          · simp [hxy, hyx] at h1
          · have hxy' : x = y := le_antisymm (not_lt.mp hyx) (not_lt.mp hxy)
            subst hxy'
            by_cases hyz : x < z
            · simp [hyz]
            · by_cases hzy : z < x
              · simp [hyz, hzy] at h2
              · have hyz' : x = z :=
                  le_antisymm (not_lt.mp hzy) (not_lt.mp hyz)
                subst hyz'
                simp only [lt_irrefl, if_false] at h1 h2 ⊢
                exact ih ys zs h1 h2

theorem cellLe_iff (a b : Cell) :
    cellLe a b = true ↔ cellOrdCmp a b ≠ .gt := by
  unfold cellLe
  cases cellOrdCmp a b <;> decide

theorem intCmp_ngt_iff (x y : Int) : intCmp x y ≠ .gt ↔ ¬(y < x) := by
  unfold intCmp
  split_ifs <;> simp <;> omega

theorem cellLe_total (a b : Cell) : cellLe a b = true ∨ cellLe b a = true := by
  rw [cellLe_iff, cellLe_iff]
  cases ha : a.fractional_index <;> cases hb : b.fractional_index
  · by_cases h : b.created_at < a.created_at
    · right
      rw [show cellOrdCmp b a = intCmp b.created_at a.created_at by
        simp [cellOrdCmp, ha, hb]]
      rw [intCmp_ngt_iff]
      omega
    · left
      rw [show cellOrdCmp a b = intCmp a.created_at b.created_at by
        simp [cellOrdCmp, ha, hb]]
      rw [intCmp_ngt_iff]
      omega
  · right
    simp [cellOrdCmp, ha, hb]
  · left
    simp [cellOrdCmp, ha, hb]
  · rename_i aIdx bIdx
    by_cases h : strCmpCC aIdx.data bIdx.data = .gt
    · right
      simp [cellOrdCmp, ha, hb,
        (strCmpCC_gt_iff_lt aIdx.data bIdx.data).mp h]
    · left
      simp [cellOrdCmp, ha, hb, h]

theorem cellLe_trans (a b c : Cell) (h1 : cellLe a b = true)
    (h2 : cellLe b c = true) : cellLe a c = true := by
  rw [cellLe_iff] at h1 h2 ⊢
  cases ha : a.fractional_index <;> cases hb : b.fractional_index <;>
    cases hc : c.fractional_index <;>
    simp only [cellOrdCmp, ha, hb, hc] at h1 h2 ⊢
  · rw [intCmp_ngt_iff] at h1 h2 ⊢
    omega
  · exact absurd rfl h2
  · exact absurd rfl h1
  · exact absurd rfl h1
  · simp
  · exact absurd rfl h2
  · simp
  · rename_i aIdx bIdx cIdx
    exact strCmpCC_ngt_trans aIdx.data bIdx.data cIdx.data h1 h2

/-- Claim C8 (amended): `get_document_cells` returns a permutation of the
document's cells that is sorted by the comparator: every cell with a
fractional index precedes every cell without one, indexed cells are in
non-decreasing string order of their indices, and two unindexed cells are in
non-decreasing `created_at` order. Two cells with the *same* fractional index
keep the map's iteration order (the comparator returns `Equal` and the sort is
stable), so such ties are not broken by `created_at`. -/
theorem getDocumentCells_order (st : DocumentProjectionState)
    (document_id : String) :
    List.Perm (getDocumentCells st document_id)
      ((st.cells.map (fun p => p.2)).filter
        (fun c => c.document_id == document_id))
    ∧ List.Pairwise (fun a b => cellLe a b = true)
        (getDocumentCells st document_id) :=
  ⟨stableSort_perm _ _, stableSort_pairwise _ cellLe_total cellLe_trans _⟩

/-! ## Per-arm facts about the materializer (claims C6, C7, C9) -/

theorem bumpDoc_cells (nS : DocumentProjectionState) (agg : String)
    (ts : Int) : (bumpDocUpdatedAt nS agg ts).cells = nS.cells := by
  unfold bumpDocUpdatedAt
  split <;> rfl

theorem bumpDoc_outputs (nS : DocumentProjectionState) (agg : String)
    (ts : Int) : (bumpDocUpdatedAt nS agg ts).outputs = nS.outputs := by
  unfold bumpDocUpdatedAt
  split <;> rfl

theorem bumpDoc_sessions (nS : DocumentProjectionState) (agg : String)
    (ts : Int) :
    (bumpDocUpdatedAt nS agg ts).runtime_sessions = nS.runtime_sessions := by
  unfold bumpDocUpdatedAt
  split <;> rfl

theorem bumpDoc_lpt (nS : DocumentProjectionState) (agg : String) (ts : Int) :
    (bumpDocUpdatedAt nS agg ts).last_processed_timestamp
      = nS.last_processed_timestamp := by
  unfold bumpDocUpdatedAt
  split <;> rfl

theorem bumpDoc_lookup_self (nS : DocumentProjectionState) (agg : String)
    (ts : Int) (doc : Document) (h : lookupKV nS.documents agg = some doc) :
    lookupKV (bumpDocUpdatedAt nS agg ts).documents agg
      = some { doc with updated_at := ts } := by
  unfold bumpDocUpdatedAt
  rw [h]
  exact lookupKV_updateKV_self _ _ _ _ h

/-- Claim C7: applying a `CellDeleted` event with payload `cell_id = c`
removes the cell stored under `c`, removes exactly the outputs whose
`cell_id` is `c`, leaves all other cells and outputs unchanged, bumps the
aggregate's document `updated_at` (when the document exists), and stamps
`last_processed_timestamp`. -/
theorem cellDeleted_spec (st : DocumentProjectionState) (ev : Event)
    (cid : String) (hk : ev.event_type = "CellDeleted")
    (hc : jsonGetStr ev.payload "cell_id" = some cid) :
    ∃ st1, applyEvent st ev = .ok st1
      ∧ lookupKV st1.cells cid = none
      ∧ (∀ k, k ≠ cid → lookupKV st1.cells k = lookupKV st.cells k)
      ∧ (∀ p ∈ st1.outputs, (p.2).cell_id ≠ cid)
      ∧ (∀ p ∈ st.outputs, (p.2).cell_id ≠ cid → p ∈ st1.outputs)
      ∧ (∀ p ∈ st1.outputs, p ∈ st.outputs)
      ∧ (∀ doc, lookupKV st.documents ev.aggregate_id = some doc →
          lookupKV st1.documents ev.aggregate_id
            = some { doc with updated_at := ev.timestamp })
      ∧ st1.last_processed_timestamp = ev.timestamp := by
  have happ : applyEvent st ev
      = applyCellDeleted { st with last_processed_timestamp := ev.timestamp }
          ev := by
    simp [applyEvent, hk]
  rw [happ]
  unfold applyCellDeleted
  simp only [hc]
  refine ⟨_, rfl, ?_, ?_, ?_, ?_, ?_, ?_, ?_⟩
  · rw [bumpDoc_cells]
    exact lookupKV_removeKV_self _ _
  · intro k hkne
    rw [bumpDoc_cells]
    exact lookupKV_removeKV_ne _ _ _ hkne
  · intro p hp
    rw [bumpDoc_outputs] at hp
    simpa using (List.mem_filter.mp hp).2
  · intro p hp hpne
    rw [bumpDoc_outputs]
    exact List.mem_filter.mpr ⟨hp, by simpa using hpne⟩
  · intro p hp
    rw [bumpDoc_outputs] at hp
    exact (List.mem_filter.mp hp).1
  · intro doc hdoc
    exact bumpDoc_lookup_self _ _ _ _ hdoc
  · rw [bumpDoc_lpt]

/-- Claim C9: applying a `DocumentDeleted` event removes exactly the
aggregate's entry from `documents`, stamps `last_processed_timestamp`, and
changes nothing else: cells (including the deleted document's cells), outputs
and runtime sessions are untouched, and every other document is unchanged. -/
theorem documentDeleted_spec (st : DocumentProjectionState) (ev : Event)
    (hk : ev.event_type = "DocumentDeleted") :
    ∃ st1, applyEvent st ev = .ok st1
      ∧ lookupKV st1.documents ev.aggregate_id = none
      ∧ (∀ k, k ≠ ev.aggregate_id →
          lookupKV st1.documents k = lookupKV st.documents k)
      ∧ st1.cells = st.cells
      ∧ st1.outputs = st.outputs
      ∧ st1.runtime_sessions = st.runtime_sessions
      ∧ st1.last_processed_timestamp = ev.timestamp := by
  have happ : applyEvent st ev
      = applyDocumentDeleted
          { st with last_processed_timestamp := ev.timestamp } ev := by
    simp [applyEvent, hk]
  rw [happ]
  unfold applyDocumentDeleted
  refine ⟨_, rfl, ?_, ?_, rfl, rfl, rfl, rfl⟩
  · exact lookupKV_removeKV_self _ _
  · intro k hkne
    exact lookupKV_removeKV_ne _ _ _ hkne

/-- A failed `apply_event` never advances the incremental projection: the
gated loop either skips the event or stops before committing a new state. -/
theorem applyNewGo_single_of_error (st : DocumentProjectionState) (ev : Event)
    (er : EventError) (h : applyEvent st ev = .error er) :
    (applyNewGo st [ev]).2 = st := by
  unfold applyNewGo
  by_cases hgate : st.last_processed_timestamp < ev.timestamp
      ∧ handlesEventType ev.event_type
  · rw [if_pos hgate, h]
  · rw [if_neg hgate]
    rfl

/-- Packaging of a concrete `ValidationError`: the apply fails with some
`ValidationError` and the projection does not advance. -/
theorem validationStops (st : DocumentProjectionState) (ev : Event)
    (msg : String)
    (h : applyEvent st ev = .error (.ValidationError msg)) :
    (∃ m2, applyEvent st ev = .error (.ValidationError m2))
    ∧ (applyNewGo st [ev]).2 = st :=
  ⟨⟨msg, h⟩, applyNewGo_single_of_error st ev _ h⟩

/-- Claim C6 (amended): for every cell-level kind, a payload missing any one
of the keys the code hard-requires (`cell_id` and `cell_type` for
`CellCreated`; `cell_id` for `CellSourceUpdated`, `CellExecutionStateChanged`
and `CellDeleted`; `cell_id` and `fractional_index` for `CellMoved`;
`output_id`, `cell_id` and `output_type` for `CellOutputCreated`) makes
`apply_event` return a `ValidationError` and leaves the incremental
projection state unchanged; for `CellSourceUpdated` the missing-`cell_id`
error is exactly `"Missing cell_id"`. But `source` is *not* required by
`CellSourceUpdated`: with the `cell_id` of an existing cell and no `source`
key the apply succeeds, keeps the cell's source, and still bumps the cell's
`updated_at`, the document's `updated_at` and `last_processed_timestamp`. -/
theorem cellSourceUpdated_spec (st : DocumentProjectionState) (ev : Event) :
    (∀ p ∈ ([("CellCreated", "cell_id"), ("CellCreated", "cell_type"),
          ("CellSourceUpdated", "cell_id"),
          ("CellExecutionStateChanged", "cell_id"),
          ("CellOutputCreated", "output_id"),
          ("CellOutputCreated", "cell_id"),
          ("CellOutputCreated", "output_type"),
          ("CellMoved", "cell_id"), ("CellMoved", "fractional_index"),
          ("CellDeleted", "cell_id")] : List (String × String)),
        ev.event_type = p.1 → jsonGetStr ev.payload p.2 = none →
          (∃ msg, applyEvent st ev = .error (.ValidationError msg))
          ∧ (applyNewGo st [ev]).2 = st)
    ∧ (ev.event_type = "CellSourceUpdated" →
        jsonGetStr ev.payload "cell_id" = none →
        applyEvent st ev = .error (.ValidationError "Missing cell_id"))
    ∧ (ev.event_type = "CellSourceUpdated" →
        ∀ cid cell doc, jsonGetStr ev.payload "cell_id" = some cid →
          jsonGetStr ev.payload "source" = none →
          lookupKV st.cells cid = some cell →
          lookupKV st.documents ev.aggregate_id = some doc →
          ∃ st1, applyEvent st ev = .ok st1
            ∧ lookupKV st1.cells cid
                = some { cell with updated_at := ev.timestamp }
            ∧ lookupKV st1.documents ev.aggregate_id
                = some { doc with updated_at := ev.timestamp }
            ∧ st1.last_processed_timestamp = ev.timestamp) := by
  refine ⟨?_, ?_, ?_⟩
  · intro p hp
    fin_cases hp
    · intro hk hnone
      exact validationStops st ev "Missing cell_id"
        (by simp [applyEvent, hk, applyCellCreated, hnone])
    · intro hk hnone
      cases hcid : jsonGetStr ev.payload "cell_id" with
      | none =>
        exact validationStops st ev "Missing cell_id"
          (by simp [applyEvent, hk, applyCellCreated, hcid])
      | some cid =>
        exact validationStops st ev "Missing cell_type"
          (by simp [applyEvent, hk, applyCellCreated, hcid, hnone])
    · intro hk hnone
      exact validationStops st ev "Missing cell_id"
        (by simp [applyEvent, hk, applyCellSourceUpdated, hnone])
    · intro hk hnone
      exact validationStops st ev "Missing cell_id"
        (by simp [applyEvent, hk, applyCellExecutionStateChanged, hnone])
    · intro hk hnone
      exact validationStops st ev "Missing output_id"
        (by simp [applyEvent, hk, applyCellOutputCreated, hnone])
    · intro hk hnone
      cases hout : jsonGetStr ev.payload "output_id" with
      | none =>
        exact validationStops st ev "Missing output_id"
          (by simp [applyEvent, hk, applyCellOutputCreated, hout])
      | some oid =>
        exact validationStops st ev "Missing cell_id"
          (by simp [applyEvent, hk, applyCellOutputCreated, hout, hnone])
    · intro hk hnone
      cases hout : jsonGetStr ev.payload "output_id" with
      | none =>
        exact validationStops st ev "Missing output_id"
          (by simp [applyEvent, hk, applyCellOutputCreated, hout])
      | some oid =>
        cases hcid : jsonGetStr ev.payload "cell_id" with
        | none =>
          exact validationStops st ev "Missing cell_id"
            (by simp [applyEvent, hk, applyCellOutputCreated, hout, hcid])
        | some cid =>
          exact validationStops st ev "Missing output_type"
            (by simp [applyEvent, hk, applyCellOutputCreated, hout, hcid,
              hnone])
    · intro hk hnone
      exact validationStops st ev "Missing cell_id"
        (by simp [applyEvent, hk, applyCellMoved, hnone])
    · intro hk hnone
      cases hcid : jsonGetStr ev.payload "cell_id" with
      | none =>
        exact validationStops st ev "Missing cell_id"
          (by simp [applyEvent, hk, applyCellMoved, hcid])
      | some cid =>
        exact validationStops st ev "Missing fractional_index"
          (by simp [applyEvent, hk, applyCellMoved, hcid, hnone])
    · intro hk hnone
      exact validationStops st ev "Missing cell_id"
        (by simp [applyEvent, hk, applyCellDeleted, hnone])
  · intro hk hnone
    simp [applyEvent, hk, applyCellSourceUpdated, hnone]
  · intro hk cid cell doc hcid hsrc hcell hdoc
    have happ : applyEvent st ev
        = applyCellSourceUpdated
            { st with last_processed_timestamp := ev.timestamp } ev := by
      simp [applyEvent, hk]
    rw [happ]
    unfold applyCellSourceUpdated
    simp only [hcid, hsrc, hcell]
    refine ⟨_, rfl, ?_, ?_, ?_⟩
    · rw [bumpDoc_cells]
      exact lookupKV_updateKV_self _ _ _ _ hcell
    · exact bumpDoc_lookup_self _ _ _ _ hdoc
    · rw [bumpDoc_lpt]

/-! ## Incremental apply versus rebuild (claim C1) -/

theorem applyDocumentCreated_lpt (nS : DocumentProjectionState) (ev : Event)
    (st1 : DocumentProjectionState)
    (h : applyDocumentCreated nS ev = .ok st1) :
    st1.last_processed_timestamp = nS.last_processed_timestamp := by
  unfold applyDocumentCreated at h
  cases h
  rfl

theorem applyDocumentTitleUpdated_lpt (nS : DocumentProjectionState)
    (ev : Event) (st1 : DocumentProjectionState)
    (h : applyDocumentTitleUpdated nS ev = .ok st1) :
    st1.last_processed_timestamp = nS.last_processed_timestamp := by
  unfold applyDocumentTitleUpdated at h
  repeat' split at h
  all_goals (cases h; rfl)

theorem applyDocumentMetadataUpdated_lpt (nS : DocumentProjectionState)
    (ev : Event) (st1 : DocumentProjectionState)
    (h : applyDocumentMetadataUpdated nS ev = .ok st1) :
    st1.last_processed_timestamp = nS.last_processed_timestamp := by
  unfold applyDocumentMetadataUpdated at h
  repeat' split at h
  all_goals (cases h; rfl)

theorem applyCellCreated_lpt (nS : DocumentProjectionState) (ev : Event)
    (st1 : DocumentProjectionState) (h : applyCellCreated nS ev = .ok st1) :
    st1.last_processed_timestamp = nS.last_processed_timestamp := by
  unfold applyCellCreated at h
  repeat' split at h
  all_goals (first | (cases h; rw [bumpDoc_lpt]) | cases h)

theorem applyCellSourceUpdated_lpt (nS : DocumentProjectionState) (ev : Event)
    (st1 : DocumentProjectionState)
    (h : applyCellSourceUpdated nS ev = .ok st1) :
    st1.last_processed_timestamp = nS.last_processed_timestamp := by
  unfold applyCellSourceUpdated at h
  repeat' split at h
  all_goals (first | (cases h; rw [bumpDoc_lpt]) | (cases h; rfl) | cases h)

theorem applyCellExecutionStateChanged_lpt (nS : DocumentProjectionState)
    (ev : Event) (st1 : DocumentProjectionState)
    (h : applyCellExecutionStateChanged nS ev = .ok st1) :
    st1.last_processed_timestamp = nS.last_processed_timestamp := by
  unfold applyCellExecutionStateChanged at h
  repeat' split at h
  all_goals (first | (cases h; rfl) | cases h)

theorem applyCellOutputCreated_lpt (nS : DocumentProjectionState) (ev : Event)
    (st1 : DocumentProjectionState)
    (h : applyCellOutputCreated nS ev = .ok st1) :
    st1.last_processed_timestamp = nS.last_processed_timestamp := by
  unfold applyCellOutputCreated at h
  repeat' split at h
  all_goals (first | (cases h; rfl) | cases h)

theorem applyCellMoved_lpt (nS : DocumentProjectionState) (ev : Event)
    (st1 : DocumentProjectionState) (h : applyCellMoved nS ev = .ok st1) :
    st1.last_processed_timestamp = nS.last_processed_timestamp := by
  unfold applyCellMoved at h
  repeat' split at h
  all_goals (first | (cases h; rw [bumpDoc_lpt]) | (cases h; rfl) | cases h)

theorem applyCellDeleted_lpt (nS : DocumentProjectionState) (ev : Event)
    (st1 : DocumentProjectionState) (h : applyCellDeleted nS ev = .ok st1) :
    st1.last_processed_timestamp = nS.last_processed_timestamp := by
  unfold applyCellDeleted at h
  repeat' split at h
  all_goals (first | (cases h; rw [bumpDoc_lpt]) | cases h)

theorem applyDocumentDeleted_lpt (nS : DocumentProjectionState) (ev : Event)
    (st1 : DocumentProjectionState)
    (h : applyDocumentDeleted nS ev = .ok st1) :
    st1.last_processed_timestamp = nS.last_processed_timestamp := by
  unfold applyDocumentDeleted at h
  cases h
  rfl

/-- A successful `apply_event` always stamps `last_processed_timestamp` with
the event's timestamp (every arm leaves the stamped value in place). -/
theorem applyEvent_lpt (st : DocumentProjectionState) (ev : Event)
    (st1 : DocumentProjectionState) (h : applyEvent st ev = .ok st1) :
    st1.last_processed_timestamp = ev.timestamp := by
  unfold applyEvent at h
  repeat' split at h
  · exact applyDocumentCreated_lpt _ _ _ h
  · exact applyDocumentTitleUpdated_lpt _ _ _ h
  · exact applyDocumentMetadataUpdated_lpt _ _ _ h
  · exact applyCellCreated_lpt _ _ _ h
  · exact applyCellSourceUpdated_lpt _ _ _ h
  · exact applyCellExecutionStateChanged_lpt _ _ _ h
  · exact applyCellOutputCreated_lpt _ _ _ h
  · exact applyCellMoved_lpt _ _ _ h
  · exact applyCellDeleted_lpt _ _ _ h
  · exact applyDocumentDeleted_lpt _ _ _ h
  · cases h
    rfl

/-- When the timestamps are strictly increasing and start beyond the
projection's high-water mark, the incremental loop follows the rebuild fold
exactly: same successes, same states, same first error. -/
theorem applyNewGo_eq_rebuildGo (events : List Event) :
    ∀ st : DocumentProjectionState,
      (∀ e ∈ events, st.last_processed_timestamp < e.timestamp) →
      List.Pairwise (fun a b : Event => a.timestamp < b.timestamp) events →
      (∀ st1, rebuildGo st events = .ok st1 →
          applyNewGo st events = (.ok (), st1))
      ∧ (∀ er, rebuildGo st events = .error er →
          (applyNewGo st events).1 = .error er) := by
  induction events with
  | nil =>
    intro st _ _
    constructor
    · intro st1 h
      cases h
      rfl
    · intro er h
      cases h
  | cons e rest ih =>
    intro st hlt hpair
    have he : st.last_processed_timestamp < e.timestamp :=
      hlt e (by simp)
    rcases List.pairwise_cons.mp hpair with ⟨hefirst, hrest⟩
    by_cases hh : handlesEventType e.event_type = true
    · have hgate : (st.last_processed_timestamp < e.timestamp
          ∧ handlesEventType e.event_type) := ⟨he, hh⟩
      cases happly : applyEvent st e with
      | ok st2 =>
        have hlt2 : ∀ f ∈ rest, st2.last_processed_timestamp < f.timestamp := by
          intro f hf
          rw [applyEvent_lpt st e st2 happly]
          exact hefirst f hf
        obtain ⟨ihok, iherr⟩ := ih st2 hlt2 hrest
        constructor
        · intro st1 h
          unfold rebuildGo at h
          rw [if_pos hh, happly] at h
          unfold applyNewGo
          rw [if_pos hgate, happly]
          exact ihok st1 h
        · intro er h
          unfold rebuildGo at h
          rw [if_pos hh, happly] at h
          unfold applyNewGo
          rw [if_pos hgate, happly]
          exact iherr er h
      | error er2 =>
        constructor
        · intro st1 h
          unfold rebuildGo at h
          rw [if_pos hh, happly] at h
          cases h
        · intro er h
          unfold rebuildGo at h
          rw [if_pos hh, happly] at h
          cases h
          unfold applyNewGo
          rw [if_pos hgate, happly]
    · have hgate : ¬(st.last_processed_timestamp < e.timestamp
          ∧ handlesEventType e.event_type) := fun hc => hh hc.2
      have hlt2 : ∀ f ∈ rest, st.last_processed_timestamp < f.timestamp :=
        fun f hf => hlt f (by simp [hf])
      obtain ⟨ihok, iherr⟩ := ih st hlt2 hrest
      constructor
      · intro st1 h
        unfold rebuildGo at h
        rw [if_neg (fun hc => hh hc)] at h
        unfold applyNewGo
        rw [if_neg hgate]
        exact ihok st1 h
      · intro er h
        unfold rebuildGo at h
        rw [if_neg (fun hc => hh hc)] at h
        unfold applyNewGo
        rw [if_neg hgate]
        exact iherr er h

/-- Claim C1 (amended): starting from a fresh `DocumentProjection`, feeding an
event list through `apply_new_events` gives the same result as
`rebuild_from_events`, and the same final state whenever the rebuild
succeeds, **provided** the timestamps are strictly increasing and positive.
(When consecutive events share a timestamp the incremental path drops the
later ones — see the counterexample — so the unconditional claim fails.) -/
theorem applyNewEvents_eq_rebuild (events : List Event)
    (h : List.Pairwise (fun a b : Int => a < b)
      (0 :: events.map (fun e => e.timestamp))) :
    (applyNewEvents DocumentProjection.new events).1
        = (rebuildFromEvents DocumentProjection.new events).1
    ∧ ((rebuildFromEvents DocumentProjection.new events).1 = .ok () →
        (applyNewEvents DocumentProjection.new events).2
          = (rebuildFromEvents DocumentProjection.new events).2) := by
  rcases List.pairwise_cons.mp h with ⟨hpos, hpairts⟩
  have hpair : List.Pairwise (fun a b : Event => a.timestamp < b.timestamp)
      events := List.pairwise_map.mp hpairts
  have hlt : ∀ e ∈ events,
      initialState.last_processed_timestamp < e.timestamp := by
    intro e he
    have := hpos e.timestamp (List.mem_map_of_mem _ he)
    simpa [initialState] using this
  obtain ⟨hok, herr⟩ := applyNewGo_eq_rebuildGo events initialState hlt hpair
  cases hreb : rebuildGo initialState events with
  | ok st1 =>
    have hgo := hok st1 hreb
    constructor
    · simp [applyNewEvents, rebuildFromEvents, hreb, DocumentProjection.new,
        hgo]
    · intro _
      simp [applyNewEvents, rebuildFromEvents, hreb, DocumentProjection.new,
        hgo]
  | error er =>
    have hgo := herr er hreb
    constructor
    · simp [applyNewEvents, rebuildFromEvents, hreb, DocumentProjection.new,
        hgo]
    · intro hcontra
      simp [rebuildFromEvents, hreb] at hcontra

/-- Witness for C1: a document creation at timestamp 1 followed by a cell
creation at timestamp 2 — incremental apply and rebuild agree. -/
theorem applyNewEvents_eq_rebuild_witness :
    (applyNewEvents DocumentProjection.new [cxDocCreated, wCellCreated]).1
        = (rebuildFromEvents DocumentProjection.new
            [cxDocCreated, wCellCreated]).1
    ∧ ((rebuildFromEvents DocumentProjection.new
          [cxDocCreated, wCellCreated]).1 = .ok () →
        (applyNewEvents DocumentProjection.new [cxDocCreated, wCellCreated]).2
          = (rebuildFromEvents DocumentProjection.new
              [cxDocCreated, wCellCreated]).2) :=
  applyNewEvents_eq_rebuild [cxDocCreated, wCellCreated] (by decide)

/-- Counterexample for C1 as frozen: with two events sharing timestamp 1, the
incremental state keeps the original title `"T"` while the rebuilt state has
the updated title `"X"` — the states differ. -/
theorem applyNewEvents_ne_rebuild_shared_timestamp :
    (applyNewEvents DocumentProjection.new [cxDocCreated, cxTitleUpdated]).2.state
      ≠ (rebuildFromEvents DocumentProjection.new
          [cxDocCreated, cxTitleUpdated]).2.state :=
  fun h =>
    absurd
      (congrArg
        (fun st => (lookupKV st.documents "d").map (fun d => d.title)) h)
      (by decide)

/-- Witness for C6 (amended): on `exState`, applying `CellSourceUpdated` with
`cell_id = "c"` and no `source` key succeeds and bumps the timestamps. -/
theorem cellSourceUpdated_spec_witness :
    ∃ st1, applyEvent exState evCellSourceUpdatedNoSource = .ok st1
      ∧ lookupKV st1.cells "c" = some { exCell with updated_at := 5 }
      ∧ lookupKV st1.documents "d" = some { exDoc with updated_at := 5 }
      ∧ st1.last_processed_timestamp = 5 :=
  (cellSourceUpdated_spec exState evCellSourceUpdatedNoSource).2.2
    rfl "c" exCell exDoc rfl rfl rfl rfl

/-- Counterexample for C6 as frozen: the same apply was claimed to fail with a
`ValidationError` and leave the state unchanged; in fact it returns `Ok` and
the cell's `updated_at` moves from 1 to 5 (and the high-water mark to 5). -/
theorem cellSourceUpdated_missing_source_succeeds :
    (applyEvent exState evCellSourceUpdatedNoSource).toOption.map
        (fun st => ((lookupKV st.cells "c").map (fun c => c.updated_at),
          st.last_processed_timestamp))
      = some (some 5, 5)
    ∧ (lookupKV exState.cells "c").map (fun c => c.updated_at) = some 1 := by
  constructor <;> decide

/-- Witness for C7: deleting cell `c` from `exState` removes it and its
output `o1` while the other cell and output survive. -/
theorem cellDeleted_spec_witness :
    ∃ st1, applyEvent exState evCellDeleted = .ok st1
      ∧ lookupKV st1.cells "c" = none
      ∧ (∀ k, k ≠ "c" → lookupKV st1.cells k = lookupKV exState.cells k)
      ∧ (∀ p ∈ st1.outputs, (p.2).cell_id ≠ "c")
      ∧ (∀ p ∈ exState.outputs, (p.2).cell_id ≠ "c" → p ∈ st1.outputs)
      ∧ (∀ p ∈ st1.outputs, p ∈ exState.outputs)
      ∧ (∀ doc, lookupKV exState.documents "d" = some doc →
          lookupKV st1.documents "d" = some { doc with updated_at := 5 })
      ∧ st1.last_processed_timestamp = 5 :=
  cellDeleted_spec exState evCellDeleted "c" rfl rfl

/-- Witness for C9: deleting document `d` from `exState` removes only the
`documents` entry; cells, outputs and sessions are untouched. -/
theorem documentDeleted_spec_witness :
    ∃ st1, applyEvent exState evDocumentDeleted = .ok st1
      ∧ lookupKV st1.documents "d" = none
      ∧ (∀ k, k ≠ "d" → lookupKV st1.documents k = lookupKV exState.documents k)
      ∧ st1.cells = exState.cells
      ∧ st1.outputs = exState.outputs
      ∧ st1.runtime_sessions = exState.runtime_sessions
      ∧ st1.last_processed_timestamp = 5 :=
  documentDeleted_spec exState evDocumentDeleted rfl

/-- Counterexample for C8 as frozen: two cells share the fractional index
`"a0"` but `get_document_cells` keeps them in map-iteration order
`[c1, c2]` even though `c2` was created earlier (3 < 5) — the tie is not
broken by `created_at`. -/
theorem getDocumentCells_ties_not_by_created_at :
    (getDocumentCells c8State "d").map (fun c => c.id) = ["c1", "c2"]
    ∧ c8CellA.fractional_index = c8CellB.fractional_index
    ∧ c8CellB.created_at < c8CellA.created_at := by
  refine ⟨?_, rfl, by decide⟩
  decide

/-! ## The fractional-index algebra (claims C2, C3) -/

theorem BASE_eq : BASE = 62 := rfl

theorem charAt_lt_iff :
    ∀ i, i < 62 → ∀ j, j < 62 → ((charAt i < charAt j) ↔ i < j) := by decide

theorem charAt_inj62 :
    ∀ i, i < 62 → ∀ j, j < 62 → charAt i = charAt j → i = j := by decide

theorem isValidChar_charAt62 : ∀ i, i < 62 → isValidChar (charAt i) = true := by
  decide

theorem charAt_mod (p : Nat) : charAt p = charAt (p % 62) := by
  unfold charAt
  rw [BASE_eq]
  congr 1
  omega

theorem isValidChar_charAt (p : Nat) : isValidChar (charAt p) = true := by
  rw [charAt_mod]
  exact isValidChar_charAt62 (p % 62) (by omega)

theorem charPosAux_spec :
    ∀ (l : List Char) (c : Char) (k j : Nat), charPosAux l c k = some j →
      k ≤ j ∧ j - k < l.length ∧ l.getD (j - k) '0' = c := by
  intro l
  induction l with
  | nil =>
    intro c k j h
    simp [charPosAux] at h
  | cons x rest ih =>
    intro c k j h
    unfold charPosAux at h
    split at h
    · rename_i hx
      cases h
      refine ⟨le_refl _, by simp, by simpa using hx⟩
    · obtain ⟨h1, h2, h3⟩ := ih c (k + 1) j h
      refine ⟨by omega, by simp; omega, ?_⟩
      have hjk : j - k = (j - (k + 1)) + 1 := by omega
      rw [hjk]
      simpa using h3

theorem charPos_spec (c : Char) (i : Nat) (h : charPos c = some i) :
    i < 62 ∧ charAt i = c := by
  obtain ⟨h1, h2, h3⟩ := charPosAux_spec CHARS c 0 i h
  have hlen : CHARS.length = 62 := rfl
  constructor
  · omega
  · unfold charAt
    rw [BASE_eq, Nat.mod_eq_of_lt (by omega)]
    simpa using h3

theorem charPos_of_valid (c : Char) (h : isValidChar c = true) :
    ∃ i, charPos c = some i ∧ i < 62 ∧ charAt i = c := by
  unfold isValidChar at h
  cases hp : charPos c with
  | none => rw [hp] at h; cases h
  | some i =>
    obtain ⟨h62, hc⟩ := charPos_spec c i hp
    exact ⟨i, rfl, h62, hc⟩

theorem validateChars_ok :
    ∀ s : List Char, (∀ c ∈ s, isValidChar c = true) →
      validateChars s = .ok () := by
  intro s
  induction s with
  | nil => intro _; rfl
  | cons c rest ih =>
    intro h
    unfold validateChars
    rw [if_pos (h c (by simp))]
    exact ih (fun c2 hc2 => h c2 (by simp [hc2]))

theorem validateIndex_ok (s : List Char) (h1 : s ≠ [])
    (h2 : ∀ c ∈ s, isValidChar c = true) : validateIndex s = .ok () := by
  unfold validateIndex
  rw [if_neg (by simpa using h1)]
  exact validateChars_ok s h2

theorem validateIndex_fromDigits (d : List Nat) (hne : d ≠ []) :
    validateIndex (fromDigits d) = .ok () := by
  apply validateIndex_ok
  · simpa [fromDigits] using hne
  · intro c hc
    obtain ⟨n, _, rfl⟩ := List.mem_map.mp hc
    exact isValidChar_charAt n

theorem toDigits_spec :
    ∀ s : List Char, (∀ c ∈ s, isValidChar c = true) →
      ∃ d, toDigits s = .ok d ∧ fromDigits d = s ∧ ∀ n ∈ d, n < 62 := by
  intro s
  induction s with
  | nil => exact fun _ => ⟨[], rfl, rfl, by simp⟩
  | cons c rest ih =>
    intro hv
    obtain ⟨i, hi, hi62, hci⟩ := charPos_of_valid c (hv c (by simp))
    obtain ⟨d, hd1, hd2, hd3⟩ := ih (fun c2 hc2 => hv c2 (by simp [hc2]))
    refine ⟨i :: d, ?_, ?_, ?_⟩
    · unfold toDigits
      rw [hi, hd1]
      rfl
    · simp only [fromDigits, List.map_cons]
      rw [hci]
      simpa [fromDigits] using hd2
    · intro n hn
      rcases List.mem_cons.mp hn with h | h
      · omega
      · exact hd3 n h

theorem strLtCC_nil_right : ∀ a : List Char, strLtCC a [] = false := by
  intro a
  cases a <;> rfl

theorem lexLtN_nil_right : ∀ a : List Nat, lexLtN a [] = false := by
  intro a
  cases a <;> rfl

theorem strLt_fromDigits :
    ∀ (d1 d2 : List Nat), (∀ n ∈ d1, n < 62) → (∀ n ∈ d2, n < 62) →
      strLtCC (fromDigits d1) (fromDigits d2) = lexLtN d1 d2 := by
  intro d1
  induction d1 with
  | nil =>
    intro d2 _ _
    cases d2 <;> rfl
  | cons x xs ih =>
    intro d2 h1 h2
    cases d2 with
    | nil => rfl
    | cons y ys =>
      have hx : x < 62 := h1 x (by simp)
      have hy : y < 62 := h2 y (by simp)
      show strLtCC (charAt x :: fromDigits xs) (charAt y :: fromDigits ys) = _
      simp only [strLtCC, lexLtN]
      by_cases hxy : x < y
      · rw [if_pos ((charAt_lt_iff x hx y hy).mpr hxy), if_pos hxy]
      · rw [if_neg (fun hc => hxy ((charAt_lt_iff x hx y hy).mp hc)),
          if_neg hxy]
        by_cases hyx : y < x
        · rw [if_pos ((charAt_lt_iff y hy x hx).mpr hyx), if_pos hyx]
        · rw [if_neg (fun hc => hyx ((charAt_lt_iff y hy x hx).mp hc)),
            if_neg hyx]
          exact ih ys (fun n hn => h1 n (by simp [hn]))
            (fun n hn => h2 n (by simp [hn]))

theorem strLt_append_last :
    ∀ (p : List Char) (u v : Char),
      (strLtCC (p ++ [u]) (p ++ [v]) = true) ↔ u < v := by
  intro p
  induction p with
  | nil =>
    intro u v
    show strLtCC [u] [v] = true ↔ u < v
    simp only [strLtCC]
    by_cases h : u < v
    · simp [h]
    · by_cases h2 : v < u <;> simp [h, h2]
  | cons q p1 ih =>
    intro u v
    show strLtCC (q :: (p1 ++ [u])) (q :: (p1 ++ [v])) = true ↔ u < v
    simp only [strLtCC]
    rw [if_neg (lt_irrefl q), if_neg (lt_irrefl q)]
    exact ih u v

theorem strLt_append_self :
    ∀ (x : List Char) (c : Char), strLtCC x (x ++ [c]) = true := by
  intro x
  induction x with
  | nil => intro c; rfl
  | cons q x1 ih =>
    intro c
    show strLtCC (q :: x1) (q :: (x1 ++ [c])) = true
    simp only [strLtCC]
    rw [if_neg (lt_irrefl q), if_neg (lt_irrefl q)]
    exact ih c

theorem midLoopNil_cons (y : Nat) (ys : List Nat) :
    midLoopNil (y :: ys)
      = if 0 = y then 0 :: midLoopNil ys
        else if 0 + 1 = y then [0, (BASE - 1) / 2]
        else [(0 + y) / 2] := rfl

theorem midLoop_nil (b : List Nat) : midLoop [] b = midLoopNil b := rfl

theorem midLoop_cons_nil (x : Nat) (xs : List Nat) :
    midLoop (x :: xs) []
      = if x = BASE - 1 then x :: midLoop xs []
        else if x + 1 = BASE - 1 then [x, (BASE - 1) / 2]
        else [(x + (BASE - 1)) / 2] := rfl

theorem midLoop_cons_cons (x y : Nat) (xs ys : List Nat) :
    midLoop (x :: xs) (y :: ys)
      = if x = y then x :: midLoop xs ys
        else if x + 1 = y then [x, (BASE - 1) / 2]
        else [(x + y) / 2] := rfl

theorem midLoopNil_ne_nil (y : Nat) (ys : List Nat) :
    midLoopNil (y :: ys) ≠ [] := by
  rw [midLoopNil_cons]
  split_ifs <;> simp

theorem midLoop_ne_nil (a b : List Nat) (h : a ≠ [] ∨ b ≠ []) :
    midLoop a b ≠ [] := by
  cases a with
  | nil =>
    cases b with
    | nil => simp at h
    | cons y ys => exact midLoopNil_ne_nil y ys
  | cons x xs =>
    cases b with
    | nil =>
      rw [midLoop_cons_nil]
      split_ifs <;> simp
    | cons y ys =>
      rw [midLoop_cons_cons]
      split_ifs <;> simp

theorem lexLtN_cons_of_lt {y : Nat} (c : Nat) (rest : List Nat)
    (ys : List Nat) (h : c < y) : lexLtN (c :: rest) (y :: ys) = true := by
  simp only [lexLtN]
  rw [if_pos h]

theorem lexLtN_cons_cons_same (c : Nat) (rest ys : List Nat) :
    lexLtN (c :: rest) (c :: ys) = lexLtN rest ys := by
  simp only [lexLtN]
  rw [if_neg (lt_irrefl c), if_neg (lt_irrefl c)]

/-- The head cases of a strict lexicographic comparison. -/
theorem lexLtN_cons_cases (x y : Nat) (xs ys : List Nat)
    (h : lexLtN (x :: xs) (y :: ys) = true) :
    x < y ∨ (x = y ∧ lexLtN xs ys = true) := by
  simp only [lexLtN] at h
  by_cases h1 : x < y
  · exact Or.inl h1
  · by_cases h2 : y < x
    · rw [if_neg h1, if_pos h2] at h
      cases h
    · refine Or.inr ⟨le_antisymm (not_lt.mp h2) (not_lt.mp h1), ?_⟩
      rwa [if_neg h1, if_neg h2] at h

/-- The scanned midpoint never exceeds `b`: it equals `b` exactly in the
degenerate case where `b` is `a` extended by zeros. -/
theorem midLoop_le :
    ∀ (b a : List Nat), lexLtN a b = true →
      midLoop a b = b ∨ lexLtN (midLoop a b) b = true := by
  intro b
  induction b with
  | nil =>
    intro a h
    rw [lexLtN_nil_right] at h
    cases h
  | cons y ys ih =>
    intro a h
    cases a with
    | nil =>
      rw [midLoop_nil, midLoopNil_cons]
      by_cases hy0 : 0 = y
      · subst hy0
        rw [if_pos rfl]
        cases ys with
        | nil =>
          left
          rfl
        | cons z zs =>
          have hlt2 : lexLtN [] (z :: zs) = true := rfl
          rcases ih [] hlt2 with h1 | h1
          · left
            rw [midLoop_nil] at h1
            rw [h1]
          · right
            rw [midLoop_nil] at h1
            rw [lexLtN_cons_cons_same]
            exact h1
      · by_cases hy1 : 0 + 1 = y
        · rw [if_neg hy0, if_pos hy1]
          right
          exact lexLtN_cons_of_lt _ _ _ (by omega)
        · rw [if_neg hy0, if_neg hy1]
          right
          exact lexLtN_cons_of_lt _ _ _ (by omega)
    | cons x xs =>
      rw [midLoop_cons_cons]
      by_cases hxy : x = y
      · subst hxy
        rw [if_pos rfl]
        have htail : lexLtN xs ys = true := by
          rcases lexLtN_cons_cases x x xs ys h with h1 | ⟨_, h1⟩
          · exact absurd h1 (lt_irrefl x)
          · exact h1
        rcases ih xs htail with h1 | h1
        · left
          rw [h1]
        · right
          rw [lexLtN_cons_cons_same]
          exact h1
      · have hlt : x < y := by
          rcases lexLtN_cons_cases x y xs ys h with h1 | ⟨h1, _⟩
          · exact h1
          · exact absurd h1 hxy
        rw [if_neg hxy]
        by_cases hadj : x + 1 = y
        · rw [if_pos hadj]
          right
          exact lexLtN_cons_of_lt _ _ _ hlt
        · rw [if_neg hadj]
          right
          exact lexLtN_cons_of_lt _ _ _ (by omega)

theorem midLoopNil_lt62 :
    ∀ (b : List Nat), (∀ n ∈ b, n < 62) → ∀ n ∈ midLoopNil b, n < 62 := by
  intro b
  induction b with
  | nil =>
    intro _ n hn
    cases hn
  | cons y ys ih =>
    intro hb n hn
    have hy : y < 62 := hb y (by simp)
    rw [midLoopNil_cons] at hn
    by_cases hy0 : 0 = y
    · rw [if_pos hy0] at hn
      rcases List.mem_cons.mp hn with h | h
      · omega
      · exact ih (fun m hm => hb m (by simp [hm])) n h
    · by_cases hy1 : 0 + 1 = y
      · rw [if_neg hy0, if_pos hy1] at hn
        have hB : BASE - 1 = 61 := rfl
        rcases List.mem_cons.mp hn with h | h
        · omega
        · rcases List.mem_cons.mp h with h2 | h2
          · omega
          · cases h2
      · rw [if_neg hy0, if_neg hy1] at hn
        rcases List.mem_cons.mp hn with h | h
        · omega
        · cases h

theorem midLoop_lt62 :
    ∀ (a : List Nat), (∀ n ∈ a, n < 62) → ∀ (b : List Nat),
      (∀ n ∈ b, n < 62) → ∀ n ∈ midLoop a b, n < 62 := by
  intro a
  induction a with
  | nil =>
    intro _ b hb n hn
    rw [midLoop_nil] at hn
    exact midLoopNil_lt62 b hb n hn
  | cons x xs ih =>
    intro ha b hb n hn
    have hx : x < 62 := ha x (by simp)
    have hB : BASE - 1 = 61 := rfl
    cases b with
    | nil =>
      rw [midLoop_cons_nil] at hn
      by_cases h61 : x = BASE - 1
      · rw [if_pos h61] at hn
        rcases List.mem_cons.mp hn with h | h
        · omega
        · exact ih (fun m hm => ha m (by simp [hm])) [] (by simp) n h
      · by_cases h60 : x + 1 = BASE - 1
        · rw [if_neg h61, if_pos h60] at hn
          rcases List.mem_cons.mp hn with h | h
          · omega
          · rcases List.mem_cons.mp h with h2 | h2
            · omega
            · cases h2
        · rw [if_neg h61, if_neg h60] at hn
          rcases List.mem_cons.mp hn with h | h
          · omega
          · cases h
    | cons y ys =>
      have hy : y < 62 := hb y (by simp)
      rw [midLoop_cons_cons] at hn
      by_cases hxy : x = y
      · rw [if_pos hxy] at hn
        rcases List.mem_cons.mp hn with h | h
        · omega
        · exact ih (fun m hm => ha m (by simp [hm])) ys
            (fun m hm => hb m (by simp [hm])) n h
      · by_cases hadj : x + 1 = y
        · rw [if_neg hxy, if_pos hadj] at hn
          rcases List.mem_cons.mp hn with h | h
          · omega
          · rcases List.mem_cons.mp h with h2 | h2
            · omega
            · cases h2
        · rw [if_neg hxy, if_neg hadj] at hn
          rcases List.mem_cons.mp hn with h | h
          · omega
          · cases h

theorem midLoopNil_strict :
    ∀ (bs : List Nat), (∃ d ∈ bs, d ≠ 0) →
      lexLtN (midLoopNil bs) bs = true := by
  intro bs
  induction bs with
  | nil =>
    rintro ⟨d, hd, _⟩
    cases hd
  | cons y ys ih =>
    intro hex
    rw [midLoopNil_cons]
    by_cases hy0 : 0 = y
    · subst hy0
      rw [if_pos rfl]
      have hex2 : ∃ d ∈ ys, d ≠ 0 := by
        rcases hex with ⟨d, hd, hdne⟩
        rcases List.mem_cons.mp hd with h | h
        · exact absurd h hdne
        · exact ⟨d, h, hdne⟩
      rw [lexLtN_cons_cons_same]
      exact ih hex2
    · by_cases hy1 : 0 + 1 = y
      · rw [if_neg hy0, if_pos hy1]
        exact lexLtN_cons_of_lt _ _ _ (by omega)
      · rw [if_neg hy0, if_neg hy1]
        exact lexLtN_cons_of_lt _ _ _ (by omega)

theorem midLoop_zero_strict (b : List Nat) (hex : ∃ d ∈ b, d ≠ 0) :
    lexLtN (midLoop [0] b) b = true := by
  cases b with
  | nil =>
    rcases hex with ⟨d, hd, _⟩
    cases hd
  | cons y ys =>
    rw [midLoop_cons_cons]
    by_cases hy0 : (0 : Nat) = y
    · subst hy0
      rw [if_pos rfl]
      have hex2 : ∃ d ∈ ys, d ≠ 0 := by
        rcases hex with ⟨d, hd, hdne⟩
        rcases List.mem_cons.mp hd with h | h
        · exact absurd h hdne
        · exact ⟨d, h, hdne⟩
      rw [lexLtN_cons_cons_same, midLoop_nil]
      exact midLoopNil_strict ys hex2
    · by_cases hy1 : 0 + 1 = y
      · rw [if_neg hy0, if_pos hy1]
        exact lexLtN_cons_of_lt _ _ _ (by omega)
      · rw [if_neg hy0, if_neg hy1]
        exact lexLtN_cons_of_lt _ _ _ (by omega)

theorem midLoopNil_zeros :
    ∀ (ys : List Nat), (∀ d ∈ ys, d = 0) → midLoopNil ys = ys := by
  intro ys
  induction ys with
  | nil => intro _; rfl
  | cons y ys ih =>
    intro hall
    have hy : y = 0 := hall y (by simp)
    rw [midLoopNil_cons, if_pos hy.symm,
      ih (fun d hd => hall d (by simp [hd])), hy]

theorem midLoop_zero_zeros (b : List Nat) (hne : b ≠ [])
    (hall : ∀ d ∈ b, d = 0) : midLoop [0] b = b := by
  cases b with
  | nil => exact absurd rfl hne
  | cons y ys =>
    have hy : y = 0 := hall y (by simp)
    rw [midLoop_cons_cons, if_pos hy.symm, midLoop_nil,
      midLoopNil_zeros ys (fun d hd => hall d (by simp [hd])), hy]

/-- Claim C2 (amended): for nonempty `a < b` over the alphabet, `between`
returns `Ok(m)` with `validate_index(m)` succeeding and `m ≤ b` — but not
always `a < m < b`: `m = b` when `b` is `a` extended by `'0'`s, and `m` can
even fall below `a` when the first differing digits are adjacent (see the
counterexample). -/
theorem between_spec (a b : List Char) (ha : a ≠ [])
    (hav : ∀ c ∈ a, isValidChar c = true)
    (hbv : ∀ c ∈ b, isValidChar c = true) (hab : strLtCC a b = true) :
    ∃ m, between a b = .ok m ∧ validateIndex m = .ok ()
      ∧ (strLtCC m b = true ∨ m = b) := by
  have hbne : b ≠ [] := by
    intro hb
    subst hb
    rw [strLtCC_nil_right] at hab
    cases hab
  obtain ⟨da, hda1, hda2, hda3⟩ := toDigits_spec a hav
  obtain ⟨db, hdb1, hdb2, hdb3⟩ := toDigits_spec b hbv
  have hlex : lexLtN da db = true := by
    rw [← strLt_fromDigits da db hda3 hdb3, hda2, hdb2]
    exact hab
  have hdane : da ≠ [] := by
    intro h0
    apply ha
    rw [← hda2, h0]
    rfl
  have hmidne : midLoop da db ≠ [] := midLoop_ne_nil da db (Or.inl hdane)
  have hmid_eq : midpoint da db = midLoop da db := by
    unfold midpoint
    rw [if_neg (by simpa using hmidne)]
  have hbet : between a b = .ok (fromDigits (midpoint da db)) := by
    unfold between
    rw [if_neg (by simp [hab])]
    rw [validateIndex_ok a ha hav, validateIndex_ok b hbne hbv, hda1, hdb1]
    rfl
  refine ⟨fromDigits (midpoint da db), hbet, ?_, ?_⟩
  · exact validateIndex_fromDigits _ (by rw [hmid_eq]; exact hmidne)
  · rw [hmid_eq]
    rcases midLoop_le db da hlex with h1 | h1
    · right
      rw [h1, hdb2]
    · left
      have hm62 := midLoop_lt62 da hda3 db hdb3
      rw [← hdb2, strLt_fromDigits _ _ hm62 hdb3]
      exact h1

/-- Claim C3 (amended): for every nonempty index over the alphabet,
`after(x)` returns `Ok(m)` with `x < m`; `before(x)` returns `Ok(m)` with
`m < x` whenever `x` has a character other than `'0'`, but for an all-`'0'`
index `before` returns `x` itself (so `before(x) < x` fails there). -/
theorem before_after_spec (x : List Char) (hx : x ≠ [])
    (hv : ∀ c ∈ x, isValidChar c = true) :
    (∃ m, after x = .ok m ∧ strLtCC x m = true)
    ∧ (∃ m, before x = .ok m
        ∧ ((∃ c ∈ x, c ≠ '0') → strLtCC m x = true)
        ∧ ((∀ c ∈ x, c = '0') → m = x)) := by
  have hvi := validateIndex_ok x hx hv
  obtain ⟨lastC, hlast⟩ : ∃ c, x.getLast? = some c := by
    cases hgl : x.getLast? with
    | none => exact absurd (List.getLast?_eq_none_iff.mp hgl) hx
    | some c => exact ⟨c, rfl⟩
  have hx_decomp : x = x.dropLast ++ [lastC] := by
    have h1 : x.getLast? = some (x.getLast hx) := List.getLast?_eq_getLast x hx
    have h2 : lastC = x.getLast hx := by
      rw [hlast] at h1
      exact Option.some_inj.mp h1
    rw [h2]
    exact (List.dropLast_append_getLast hx).symm
  have hlastmem : lastC ∈ x := by
    rw [hx_decomp]
    simp
  obtain ⟨p, hp, hp62, hcp⟩ := charPos_of_valid lastC (hv lastC hlastmem)
  have hxe : x.isEmpty = false := by simpa using hx
  have hB : BASE - 1 = 61 := rfl
  constructor
  · by_cases hplt : p < BASE - 1
    · refine ⟨x.dropLast ++ [charAt (p + 1)], ?_, ?_⟩
      · simp [after, hvi, hlast, getNextChar, hp, hplt, Bind.bind,
          Except.bind]
      · have hstep : strLtCC (x.dropLast ++ [lastC])
            (x.dropLast ++ [charAt (p + 1)]) = true := by
          rw [strLt_append_last, ← hcp]
          exact (charAt_lt_iff p hp62 (p + 1) (by omega)).mpr (by omega)
        rw [← hx_decomp] at hstep
        exact hstep
    · refine ⟨x ++ [charAt 1], ?_, strLt_append_self x (charAt 1)⟩
      simp [after, hvi, hlast, getNextChar, hp, hplt, Bind.bind, Except.bind]
  · by_cases hp0 : p > 0
    · refine ⟨x.dropLast ++ [charAt (p - 1)], ?_, ?_, ?_⟩
      · simp [before, hvi, hxe, hlast, getPreviousChar, hp, hp0, Bind.bind,
          Except.bind]
      · intro _
        have hstep : strLtCC (x.dropLast ++ [charAt (p - 1)])
            (x.dropLast ++ [lastC]) = true := by
          rw [strLt_append_last, ← hcp]
          exact (charAt_lt_iff (p - 1) (by omega) p hp62).mpr (by omega)
        rw [← hx_decomp] at hstep
        exact hstep
      · intro hall
        exfalso
        have hl0 : lastC = '0' := hall lastC hlastmem
        rw [hl0] at hp
        have h00 : charPos '0' = some 0 := rfl
        rw [h00] at hp
        cases hp
        omega
    · obtain ⟨dx, hdx1, hdx2, hdx3⟩ := toDigits_spec x hv
      have hdxne : dx ≠ [] := by
        intro h0
        apply hx
        rw [← hdx2, h0]
        rfl
      have hmidne := midLoop_ne_nil [0] dx (Or.inl (by simp))
      have hmid_eq : midpoint [0] dx = midLoop [0] dx := by
        unfold midpoint
        rw [if_neg (by simpa using hmidne)]
      have hm : before x = .ok (fromDigits (midpoint [0] dx)) := by
        simp [before, hvi, hxe, hlast, getPreviousChar, hp, hp0, hdx1,
          Bind.bind, Except.bind]
      refine ⟨_, hm, ?_, ?_⟩
      · intro hex
        have hexd : ∃ d ∈ dx, d ≠ 0 := by
          rcases hex with ⟨c, hc, hcne⟩
          rw [← hdx2] at hc
          obtain ⟨d, hd, hdc⟩ := List.mem_map.mp hc
          refine ⟨d, hd, ?_⟩
          intro hd0
          apply hcne
          rw [← hdc, hd0]
          rfl
        have hstrict := midLoop_zero_strict dx hexd
        rw [hmid_eq]
        have h062 : ∀ n ∈ ([0] : List Nat), n < 62 := by
          intro n hn
          simp at hn
          omega
        have hgoal : strLtCC (fromDigits (midLoop [0] dx))
            (fromDigits dx) = true := by
          rw [strLt_fromDigits _ _ (midLoop_lt62 [0] h062 dx hdx3) hdx3]
          exact hstrict
        rw [hdx2] at hgoal
        exact hgoal
      · intro hall
        have halld : ∀ d ∈ dx, d = 0 := by
          intro d hd
          have hcd : charAt d ∈ x := by
            rw [← hdx2]
            exact List.mem_map_of_mem _ hd
          have hc0 : charAt d = '0' := hall (charAt d) hcd
          have hd62 : d < 62 := hdx3 d hd
          exact charAt_inj62 d hd62 0 (by omega) (by rw [hc0]; rfl)
        rw [hmid_eq, midLoop_zero_zeros dx hdxne halld, hdx2]

/-- Witness for C2 (amended): `between("1", "3") = Ok("2")`, which is valid
and `< "3"`. -/
theorem between_spec_witness :
    ∃ m, between ['1'] ['3'] = .ok m ∧ validateIndex m = .ok ()
      ∧ (strLtCC m ['3'] = true ∨ m = ['3']) :=
  between_spec ['1'] ['3'] (by decide) (by decide) (by decide) (by decide)

/-- Counterexample for C2 as frozen: `between("a", "a0")` returns `"a0" = b`
(not strictly below `b`), and `between("5e", "6")` returns `"5U"`, which is
strictly *below* `a = "5e"` — so neither `m < b` nor `a < m` holds in
general. -/
theorem between_counterexample :
    between ['a'] ['a', '0'] = .ok ['a', '0']
    ∧ strLtCC ['a', '0'] ['a', '0'] = false
    ∧ between ['5', 'e'] ['6'] = .ok ['5', 'U']
    ∧ strLtCC ['5', 'U'] ['5', 'e'] = true := by
  refine ⟨by decide, by decide, by decide, by decide⟩

/-- Witness for C3 (amended): `after("1") = "2" > "1"` and
`before("1") = "0" < "1"`. -/
theorem before_after_spec_witness :
    (∃ m, after ['1'] = .ok m ∧ strLtCC ['1'] m = true)
    ∧ (∃ m, before ['1'] = .ok m
        ∧ ((∃ c ∈ ['1'], c ≠ '0') → strLtCC m ['1'] = true)
        ∧ ((∀ c ∈ ['1'], c = '0') → m = ['1'])) :=
  before_after_spec ['1'] (by decide) (by decide)

/-- Counterexample for C3 as frozen: `before("0")` returns `"0"` itself,
which is not strictly below `"0"`. -/
theorem before_counterexample :
    before ['0'] = .ok ['0'] ∧ strLtCC ['0'] ['0'] = false := by
  refine ⟨by decide, by decide⟩

end Eventbook
